import Mathlib

/-!
Verification development for the `tools-build-api` schema-to-type translator.

The definitions below are a shallow embedding of the TypeScript sources:
  * `src/build-api/utils.ts`          (HttpMethods, toSafePropKey, joinComment)
  * `src/build-api/tag-validator.ts`  (TagValidator)
  * `src/build-api/parse-schemas.ts`  (class ParseSchemas, the V3 dialect)
  * `dist/build-api/index.mjs`        (class ParseSchemasV2, jsonToType and the
                                       generator createFunctionTemplate)

Modelling conventions:
  * JavaScript strings are Lean `String`s; the handful of string utilities the
    code relies on (split, toUpperCase, join, regex prefix tests) are
    re-implemented over `List Char` so every definition is executable.
  * The two mutable instance buffers `typesTemplate` / `interfacesTemplate`
    are modelled as lists of appended chunks; the buffer's string value is the
    concatenation of the chunks, and every `+=` of the source appends one
    chunk.  `console.log` output is modelled as an explicit list of log lines
    returned by the only method that logs (`parseParamsSchema`).
  * The mutually recursive translator methods receive a `fuel` argument and
    every recursive call decreases it; the source terminates on finite
    documents because `refs[typeName]` is set before recursing into a
    referenced schema, and all theorems below are stated for every fuel.
  * Braces inside string literals are written with their `\x7b` / `\x7d`
    escapes, apostrophes with `\x27` and backticks with `\x60`.
-/

namespace BuildApi

/-! ### Character and string helpers -/

/-- Left curly brace character (written via its code point). -/
def lbrace : Char := Char.ofNat 123

/-- Right curly brace character (written via its code point). -/
def rbrace : Char := Char.ofNat 125

/-- ASCII decimal digit. -/
def isAsciiDigit (c : Char) : Bool := 48 ≤ c.toNat && c.toNat ≤ 57

/-- ASCII upper-case letter. -/
def isAsciiUpper (c : Char) : Bool := 65 ≤ c.toNat && c.toNat ≤ 90

/-- ASCII lower-case letter. -/
def isAsciiLower (c : Char) : Bool := 97 ≤ c.toNat && c.toNat ≤ 122

/-- ASCII letter or digit (the class change-case splits words on). -/
def isAlnumC (c : Char) : Bool := isAsciiUpper c || isAsciiLower c || isAsciiDigit c

/-- A `\w` word character of JavaScript regexes: letter, digit or underscore. -/
def isWordC (c : Char) : Bool := isAlnumC c || c = '_'

/-- First character accepted by the safe-property-key regex: letter, `$` or `_`. -/
def isKeyHeadC (c : Char) : Bool := isAsciiUpper c || isAsciiLower c || c = '$' || c = '_'

/-- Split a character list at every occurrence of `sep` (JS `String.split`).
An empty input yields `[[]]`, like `''.split(sep)` yields `['']`. -/
def splitChar (sep : Char) : List Char → List (List Char)
  | [] => [[]]
  | c :: rest =>
    let r := splitChar sep rest
    if c = sep then [] :: r
    else
      match r with
      | [] => [[c]]
      | w :: ws => (c :: w) :: ws

/-- JS `s.split('/').pop()`: the final `/`-separated segment. -/
def lastSeg (s : String) : String :=
  String.mk ((splitChar '/' s.data).getLastD [])

/-- JS `String.prototype.toUpperCase` (ASCII range). -/
def strUpper (s : String) : String := String.mk (s.data.map Char.toUpper)

/-- JS `Array.prototype.join(sep)`. -/
def joinSep (sep : String) : List String → String
  | [] => ""
  | [x] => x
  | x :: rest => x ++ sep ++ joinSep sep rest

/-- JS `String.prototype.startsWith` / `indexOf(p) === 0`. -/
def strStartsB (s pre : String) : Bool := pre.data.isPrefixOf s.data

/-- Substring test over character lists (used to state facts about generated
text; JS has no single counterpart, it is `indexOf(_) >= 0`). -/
def listInfixB (needle : List Char) : List Char → Bool
  | [] => needle.isEmpty
  | c :: rest => needle.isPrefixOf (c :: rest) || listInfixB needle rest

/-- Substring test on strings. -/
def strContainsB (s sub : String) : Bool := listInfixB sub.data s.data

/-- JS regex test `/[|&]/.test(t)`. -/
def hasBarAmp (t : String) : Bool := t.data.any (fun c => c = '|' || c = '&')

/-- JS `t.replace(/\n$/, '')`: drop one trailing newline when present. -/
def dropTrailNL (t : String) : String :=
  match t.data.getLast? with
  | some c => if c = '\n' then String.mk t.data.dropLast else t
  | none => t

/-- Case-insensitive prefix test over character lists (ASCII, models a regex
with the `i` flag matching a literal). -/
def ciPre : List Char → List Char → Bool
  | [], _ => true
  | _ :: _, [] => false
  | a :: ps, b :: ls => (Char.toUpper a == Char.toUpper b) && ciPre ps ls

/-- Remove a case-insensitive literal prefix when it matches, else keep `s`. -/
def stripHeadCI (pre s : String) : String :=
  if ciPre pre.data s.data then String.mk (s.data.drop pre.data.length) else s

/-! ### `pascalCase` (the `change-case` package)

`pascalCase` splits the input into words at non-alphanumeric characters, at a
lower-or-digit→upper boundary, and before the last upper of an upper run that
is followed by a lower; each word is then upper-cased on its first character
and lower-cased on the rest (a word after the first starting with a digit is
prefixed with `_`). -/

/-- Word splitter of change-case's `noCase`.  `cur` holds the current word in
reverse order. -/
def camelSplitAux (cur : List Char) : List Char → List (List Char)
  | [] => if cur = [] then [] else [cur.reverse]
  | c :: rest =>
    if isAlnumC c = false then
      (if cur = [] then [] else [cur.reverse]) ++ camelSplitAux [] rest
    else
      match cur with
      | [] => camelSplitAux [c] rest
      | p :: _ =>
        if (isAsciiLower p || isAsciiDigit p) && isAsciiUpper c then
          cur.reverse :: camelSplitAux [c] rest
        else if isAsciiUpper p && isAsciiUpper c &&
            (match rest with | d :: _ => isAsciiLower d | [] => false) then
          cur.reverse :: camelSplitAux [c] rest
        else
          camelSplitAux (c :: cur) rest

/-- change-case `pascalCaseTransform` applied to one word. -/
def pascalWord (idx : Nat) (w : List Char) : List Char :=
  match w with
  | [] => []
  | c :: rest =>
    if 0 < idx && isAsciiDigit c then '_' :: c :: rest.map Char.toLower
    else Char.toUpper c :: rest.map Char.toLower

/-- `pascalCase` from the change-case package.  The word transform only
distinguishes the first word (index 0) from the later ones, so the index
argument is passed as `0` for the head word and `1` for the rest. -/
def pascalCase (s : String) : String :=
  match camelSplitAux [] s.data with
  | [] => ""
  | w :: ws => String.mk (pascalWord 0 w ++ (ws.map (pascalWord 1)).flatten)

/-! ### `src/build-api/utils.ts` -/

/-- The `HttpMethods` record keys of `utils.ts`. -/
def httpMethodsKeys : List String := ["GET", "PUT", "POST", "DELETE"]

/-- `pathItemKey.toUpperCase() in HttpMethods` of both `parsePaths` loops. -/
def isHttpMethodKey (k : String) : Bool := httpMethodsKeys.contains (strUpper k)

/-- `toSafePropKey` of `utils.ts`: a key matching
`/^[a-zA-Z$_](\w|_$)+$/` is returned unchanged, any other key is wrapped in
single quotes.  The regex needs a head character and at least one further
character, every further character drawn from `\w`. -/
def toSafePropKey (key : String) : String :=
  match key.data with
  | c :: rest =>
    if isKeyHeadC c && !rest.isEmpty && rest.all isWordC then key
    else "\x27" ++ key ++ "\x27"
  | [] => "\x27" ++ key ++ "\x27"

/-- `joinComment` of `utils.ts`: empty/absent input yields `""`, otherwise a
trailing line comment with newlines flattened to spaces. -/
def joinComment (comment : Option String) : String :=
  match comment with
  | none => ""
  | some s =>
    if s = "" then ""
    else " // " ++ String.mk (s.data.map (fun ch => if ch = '\n' then ' ' else ch))

/-! ### Data model: schema nodes, operations, documents -/

/-- The `type` field of a schema node: a single name or an array of names. -/
inductive TyVal where
  | one (t : String)
  | many (ts : List String)

mutual
/-- A schema node.  Field order: `$ref`, `type`, `enum`, `properties`,
`items`, `additionalProperties`, `allOf`, `oneOf`, `anyOf`, `description`,
`deprecated`.  A node is a reference exactly when its `$ref` field holds a
non-empty string (`isRef` of the source tests truthiness of `obj.$ref`). -/
inductive Schema where
  | mk (ref : Option String) (ty : Option TyVal) (enumVals : Option (List String))
       (properties : Option (List (String × Schema)))
       (items : Option ItemsVal)
       (additionalProperties : Option AddVal)
       (allOf : Option (List Schema)) (oneOf : Option (List Schema))
       (anyOf : Option (List Schema))
       (description : Option String) (deprecated : Bool)

/-- The `items` field: a single node, or (in the permissive V2 dialect) an
array of nodes. -/
inductive ItemsVal where
  | one (s : Schema)
  | many (ss : List Schema)

/-- The `additionalProperties` field: `true`, `false`, or a schema node. -/
inductive AddVal where
  | tru
  | fls
  | schema (s : Schema)
end

def Schema.ref : Schema → Option String
  | .mk r _ _ _ _ _ _ _ _ _ _ => r

def Schema.type : Schema → Option TyVal
  | .mk _ t _ _ _ _ _ _ _ _ _ => t

def Schema.enumVals : Schema → Option (List String)
  | .mk _ _ e _ _ _ _ _ _ _ _ => e

def Schema.properties : Schema → Option (List (String × Schema))
  | .mk _ _ _ p _ _ _ _ _ _ _ => p

def Schema.items : Schema → Option ItemsVal
  | .mk _ _ _ _ i _ _ _ _ _ _ => i

def Schema.additionalProperties : Schema → Option AddVal
  | .mk _ _ _ _ _ a _ _ _ _ _ => a

def Schema.allOf : Schema → Option (List Schema)
  | .mk _ _ _ _ _ _ ao _ _ _ _ => ao

def Schema.oneOf : Schema → Option (List Schema)
  | .mk _ _ _ _ _ _ _ oo _ _ _ => oo

def Schema.anyOf : Schema → Option (List Schema)
  | .mk _ _ _ _ _ _ _ _ an _ _ => an

def Schema.description : Schema → Option String
  | .mk _ _ _ _ _ _ _ _ _ d _ => d

def Schema.deprecated : Schema → Bool
  | .mk _ _ _ _ _ _ _ _ _ _ dp => dp

/-- The inline schema node `{}` (all fields absent). -/
def emptySchemaNode : Schema :=
  .mk none none none none none none none none none none false

/-- `isRef` of the source: `!!obj?.$ref` (an empty `$ref` string is falsy). -/
def isRefField : Option String → Bool
  | some r => r != ""
  | none => false

/-- `isInterface` of the source: `obj?.type === 'object'`. -/
def isInterface (s : Schema) : Bool :=
  match s.type with
  | some (.one t) => t = "object"
  | _ => false

/-- `allOf || oneOf || anyOf` of `parseSchemaItem` together with the join
separator `allOf ? ' & ' : ' | '` (an empty combinator array is truthy). -/
def combineOf (s : Schema) : Option (List Schema × String) :=
  match s.allOf with
  | some l => some (l, " & ")
  | none =>
    match s.oneOf with
    | some l => some (l, " | ")
    | none =>
      match s.anyOf with
      | some l => some (l, " | ")
      | none => none

/-- An operation parameter of the V3 dialect: either a reference object or an
inline parameter with `name`, `in`, `schema` and `description`. -/
inductive ParamV3 where
  | ref (refPath : String)
  | inline (name : String) (loc : String) (schema : Option Schema)
           (description : Option String)

/-- `requestBody` of a V3 operation: a reference object or an inline body with
`content['application/json'].schema`. -/
inductive BodyV3 where
  | ref (refPath : String)
  | inline (appJsonSchema : Option Schema)

/-- A V3 response: a reference object or an inline response with
`content['application/json'].schema`. -/
inductive RespV3 where
  | ref (refPath : String)
  | inline (appJsonSchema : Option Schema)

/-- A V3 operation. -/
structure OperationV3 where
  tags : Option (List String)
  operationId : Option String
  description : Option String
  parameters : Option (List ParamV3)
  requestBody : Option BodyV3
  responses : List (String × RespV3)

/-- An operation parameter of the V2 dialect.  A swagger-2 parameter object
carries its own `type`/`enum`/`items` fields, so the parameter object itself
doubles as a schema node; `self` is that schema view of the parameter, used by
the source's `paramItem.schema || paramItem`. -/
inductive ParamV2 where
  | ref (refPath : String)
  | inline (name : String) (loc : String) (schema : Option Schema)
           (description : Option String) (self : Schema)

/-- A V2 response: a reference object or an inline response with a `schema`. -/
inductive RespV2 where
  | ref (refPath : String)
  | inline (schema : Option Schema)

/-- A V2 operation (`operationId` is present in documents but never read by
`ParseSchemasV2`). -/
structure OperationV2 where
  tags : Option (List String)
  operationId : Option String
  description : Option String
  parameters : Option (List ParamV2)
  responses : List (String × RespV2)

/-- The translator's output record per operation (`RequestItem`).
`requestBodyTypeIsFormData` is only ever set by the V2 translator; the V3
translator leaves it absent, modelled as `false`. -/
structure RequestItem where
  name : String
  url : String
  method : String
  description : String
  requestQueryType : String
  requestPathType : String
  requestBodyType : String
  responseType : String
  requestBodyTypeIsFormData : Bool
deriving DecidableEq, Repr

/-! ### The ad-hoc JSON value model and `jsonToType` -/

/-- A JavaScript JSON value (plus `undefined`, which `data[0]` of an empty
array produces). -/
inductive JVal where
  | undef
  | null
  | bool (b : Bool)
  | num (n : Int)
  | str (s : String)
  | arr (elems : List JVal)
  | obj (fields : List (String × JVal))

/-- JavaScript truthiness of a JSON value. -/
def jsTruthy : JVal → Bool
  | .undef => false
  | .null => false
  | .bool b => b
  | .num n => n != 0
  | .str s => s != ""
  | .arr _ => true
  | .obj _ => true

/-- JavaScript `typeof` for the values `jsonToType` reaches after its
`typeof data === 'object'` test has failed. -/
def jsTypeof : JVal → String
  | .undef => "undefined"
  | .bool _ => "boolean"
  | .num _ => "number"
  | .str _ => "string"
  | .null => "object"
  | .arr _ => "object"
  | .obj _ => "object"

mutual
/-- `jsonToType` of the source: infer a structural type expression from a live
JSON value.  Falsy data (including `null`, `undefined`, `0`, `''`, `false`)
yields `'any'`; an array infers from its first element (`data[0]` of an empty
array is `undefined`); an object with keys recurses per key; any other truthy
value yields its `typeof`. -/
def jsonToType (j : JVal) : String :=
  if jsTruthy j then
    match j with
    | .arr l =>
      (match l with
       | [] => jsonToType .undef
       | x :: _ => jsonToType x) ++ "[]"
    | .obj kvs =>
      match kvs with
      | [] => "\x7b[P:string]: any\x7d"
      | h :: t => "\x7b" ++ jsonToTypeFields (h :: t) ++ "\x7d"
    | other => jsTypeof other
  else "any"
termination_by sizeOf j
decreasing_by all_goals (simp_wf <;> omega)

/-- The `for (const key of keys)` loop body of `jsonToType`. -/
def jsonToTypeFields : List (String × JVal) → String
  | [] => ""
  | (key, v) :: rest =>
    toSafePropKey key ++ ": " ++ jsonToType v ++ ";" ++ jsonToTypeFields rest
termination_by l => sizeOf l
decreasing_by all_goals (simp_wf <;> omega)
end

/-! ### Configuration and manual type overrides -/

/-- The `from` argument of the instance method `toSafePropKey`. -/
inductive PKFrom where
  | param
  | schema

/-- The four `RequestItem` type slots a manual override may replace. -/
inductive FieldKey where
  | requestQueryType
  | requestPathType
  | requestBodyType
  | responseType

/-- What a manual override resolves to: a literal type-expression string or a
plain data value (the configuration type declares `string | object`). -/
inductive ManualBase where
  | str (s : String)
  | data (j : JVal)

/-- A manual type override value: a literal string, a plain data value, or a
function of the request item returning either. -/
inductive ManualVal where
  | str (s : String)
  | data (j : JVal)
  | fn (f : RequestItem → ManualBase)

/-- The per-document configuration (`DocConfig`).  The fields `includeList`,
`excludeList`, `urlPre` and `removeUrlPre` model the source options `include`,
`exclude`, `urlPrefix` and `removeUrlPrefix` (renamed for Lean). -/
structure Config where
  name : String
  includeList : Option (List String)
  excludeList : Option (List String)
  urlPre : Option String
  removeUrlPre : Option String
  responseRootInterface : Option (List (String × String))
  customResponseReturnPath : Option String
  propKeyReplacer : Option (String → PKFrom → String)
  urlToNameReplacer : Option (String → String)
  getTag : Option (String → String → OperationV2 → String)
  manualTypes : List (String × List (String × List (FieldKey × ManualVal)))
  ssr : Option (Bool ⊕ List String)

/-- A configuration with every optional field absent. -/
def defaultConfig : Config :=
  ⟨"main", none, none, none, none, none, none, none, none, none, [], none⟩

/-- The instance method `toSafePropKey(key, from)`: apply the configured
`propKeyReplacer` first, then the global `toSafePropKey`. -/
def cfgSafePropKey (cfg : Config) (key : String) (from_ : PKFrom) : String :=
  toSafePropKey (match cfg.propKeyReplacer with
    | some f => f key from_
    | none => key)

/-! ### `src/build-api/tag-validator.ts` -/

/-- The `TagValidator` instance state: both label lists upper-cased at
construction time. -/
structure TagValidator where
  inc : Option (List String)
  exc : Option (List String)

/-- The `TagValidator` constructor:
`config.include?.map(upperCase)` / `config.exclude?.map(upperCase)`. -/
def mkTagValidator (cfg : Config) : TagValidator :=
  ⟨cfg.includeList.map (List.map strUpper), cfg.excludeList.map (List.map strUpper)⟩

/-- `TagValidator.validate`.  The source's early returns:
`if (_include && _include.indexOf(tag) < 0) return false;` then
`if (_exclude && _exclude.indexOf(tag) >= 0) return false;` then `true`.
A configured list (also an empty one, which is truthy) takes part in both
tests. -/
def tagValidate (v : TagValidator) (tag : String) : Bool :=
  let t := strUpper tag
  if (match v.inc with | some l => !(l.contains t) | none => false) then false
  else if (match v.exc with | some l => l.contains t | none => false) then false
  else true

/-! ### Translator instance state -/

/-- The mutable part of one translator instance (one generation pass):
the document's schema container (`components.schemas` for V3, `definitions`
for V2), the `refs` dedup registry, and the two output template buffers.
Buffers are lists of appended chunks; the buffer's string value is their
concatenation. -/
structure St where
  schemas : List (String × Schema)
  refs : List String
  typesTemplate : List String
  interfacesTemplate : List String

/-- `getRefName`: the reference path's final `/`-separated segment. -/
def getRefName (refPath : String) : String := lastSeg refPath

/-- `name.replace(/^api\./i, '')` of `formatSchemaName`. -/
def stripApiDot (name : String) : String :=
  match name.data with
  | a :: p :: i :: d :: rest =>
    if Char.toUpper a = 'A' ∧ Char.toUpper p = 'P' ∧ Char.toUpper i = 'I' ∧ d = '.'
    then String.mk rest else name
  | _ => name

/-- `formatSchemaName`: pascal-case after removing a leading case-insensitive
`api.`. -/
def formatSchemaName (name : String) : String := pascalCase (stripApiDot name)

/-- `getSchemaItemComment` (identical in both translator classes). -/
def getSchemaItemComment (s : Schema) : String :=
  if isRefField s.ref then ""
  else
    let comment := s.description.getD ""
    (if comment = "" then "" else "\n/** " ++ comment ++ " */") ++
    (if s.deprecated then "\n/** @deprecated 已废弃 */" else "")

/-! ### The V3 translator (`class ParseSchemas` of `parse-schemas.ts`)

Mutually recursive on an explicit `fuel` that every recursive call decreases.
The source terminates on finite documents because `refs[typeName]` is set
before the referenced schema's body is translated; every theorem below is
stated for arbitrary fuel. -/

mutual

/-- `parseSchemaItem` of `ParseSchemas` (the V3 dialect). -/
def parseSchemaItemV3 (cfg : Config) (fuel : Nat) (st : St) (s : Schema) :
    St × String :=
  match fuel with
  | 0 => (st, "")
  | f+1 =>
    -- `if (this.isRef(schemaItem)) return this.parseRef(schemaItem);`
    -- (`parseRef` computes the name, then compiles the reference on demand)
    if isRefField s.ref then
      let name := getRefName (s.ref.getD "")
      let typeName := formatSchemaName name
      (refSchemaV3 cfg f st name typeName, typeName)
    else
      match combineOf s with
      | some (l, sep) =>
        let r := parseListV3 cfg f st l
        let combineType := joinSep sep r.2
        (r.1, if combineType = "" then "" else "(" ++ combineType ++ ") | null")
      | none =>
        match s.type with
        | some (.one "integer") => (st, "number")
        | some (.one "string") =>
          match s.enumVals with
          | some es => (st, "\x27" ++ joinSep "\x27 | \x27" es ++ "\x27")
          | none => (st, "string")
        | some (.one "array") =>
          -- `return this.parseSchemaItem(schemaItem.items) + '[]';`
          -- V3 `items` is a single node; the source throws on an absent
          -- `items` (property access on undefined), and an array-valued
          -- `items` falls through every check of `parseSchemaItem` and
          -- yields the empty translation.
          match s.items with
          | some (.one t) =>
            let r := parseSchemaItemV3 cfg f st t
            (r.1, r.2 ++ "[]")
          | some (.many _) => (st, "" ++ "[]")
          | none => (st, "" ++ "[]")
        | some (.one "object") =>
          -- `parseSchemaItemObject(schemaItem) + parseSchemaItemAdditional(...)`
          -- (`parseSchemaItemObject` inlined: opening brace, property loop,
          -- closing brace)
          let ro := parsePropsV3 cfg f st "\x7b\n" (s.properties.getD [])
          let ra := parseAdditionalV3 cfg f ro.1 s.additionalProperties
          (ra.1, (ro.2 ++ "\x7d\n") ++ ra.2)
        | some (.many ts) => (st, joinSep " | " ts)
        | some (.one other) => (st, other)
        | none => (st, "")
termination_by structural fuel

/-- The sequential `combineSchemas.map((item) => this.parseSchemaItem(item))`
(state threads left to right, as JS method calls mutate `this`). -/
def parseListV3 (cfg : Config) (fuel : Nat) (st : St) (l : List Schema) :
    St × List String :=
  match fuel with
  | 0 => (st, [])
  | f+1 =>
    match l with
    | [] => (st, [])
    | s :: rest =>
      let r := parseSchemaItemV3 cfg f st s
      let rr := parseListV3 cfg f r.1 rest
      (rr.1, r.2 :: rr.2)
termination_by structural fuel

/-- The `for (const key in props)` loop of `parseSchemaItemObject`:
`template` accumulates the lines. -/
def parsePropsV3 (cfg : Config) (fuel : Nat) (st : St) (template : String)
    (props : List (String × Schema)) : St × String :=
  match fuel with
  | 0 => (st, template)
  | f+1 =>
    match props with
    | [] => (st, template)
    | (key, propItem) :: rest =>
      let r := parseSchemaItemV3 cfg f st propItem
      let propKey := cfgSafePropKey cfg key .schema
      let line :=
        if isRefField propItem.ref then
          "  " ++ propKey ++ ": " ++ r.2
        else
          (if propItem.deprecated then "/** @deprecated 已废弃 */\n" else "") ++
          "  " ++ propKey ++ ": " ++ r.2 ++ joinComment propItem.description
      parsePropsV3 cfg f r.1 (template ++ line ++ "\n") rest
termination_by structural fuel

/-- `parseSchemaItemAdditional` of `ParseSchemas`: `true` extends with an open
map, a schema node extends with that node's translation, `false`/absent add
nothing. -/
def parseAdditionalV3 (cfg : Config) (fuel : Nat) (st : St)
    (additional : Option AddVal) : St × String :=
  match fuel with
  | 0 => (st, "")
  | f+1 =>
    match additional with
    | none => (st, "")
    | some .fls => (st, "")
    | some .tru => (st, " & " ++ "\x7b[P:string]: any\x7d")
    | some (.schema sub) =>
      let r := parseSchemaItemV3 cfg f st sub
      (r.1, " & " ++ r.2)
termination_by structural fuel

/-- `refSchema` of `ParseSchemas`: look the name up in
`doc.components.schemas`, return early when absent or already registered,
otherwise register the type name, translate the schema's body and append the
comment plus one `interface`/`type` declaration chunk. -/
def refSchemaV3 (cfg : Config) (fuel : Nat) (st : St) (name typeName : String) :
    St :=
  match fuel with
  | 0 => st
  | f+1 =>
    match st.schemas.lookup name with
    | none => st
    | some schemaItem =>
      if st.refs.contains typeName then st
      else
        let st1 : St := { st with refs := typeName :: st.refs }
        let r := parseSchemaItemV3 cfg f st1 schemaItem
        let st3 : St := { r.1 with
          interfacesTemplate :=
            r.1.interfacesTemplate ++ [getSchemaItemComment schemaItem] }
        if isInterface schemaItem then
          { st3 with interfacesTemplate := st3.interfacesTemplate ++
              ["\ninterface " ++ typeName ++ " " ++ r.2] }
        else
          { st3 with typesTemplate := st3.typesTemplate ++
              ["\ntype " ++ typeName ++ " = " ++ r.2] }
termination_by structural fuel

end

/-- `parseRef` of `ParseSchemas`: resolve the final path segment, format it,
compile the referenced schema on demand, and return the formatted name. -/
def parseRefV3 (cfg : Config) (fuel : Nat) (st : St) (refPath : String) :
    St × String :=
  let name := getRefName refPath
  let typeName := formatSchemaName name
  (refSchemaV3 cfg fuel st name typeName, typeName)

/-! ### The V2 translator (`class ParseSchemasV2` of `dist/build-api/index.mjs`) -/

mutual

/-- `parseSchemaItem` of `ParseSchemasV2`.  Takes an optional node: the V2
method starts with `if (!schemaItem) return '';`. -/
def parseSchemaItemV2 (cfg : Config) (fuel : Nat) (st : St)
    (os : Option Schema) : St × String :=
  match fuel with
  | 0 => (st, "")
  | f+1 =>
    match os with
    | none => (st, "")
    | some s =>
      if isRefField s.ref then
        let name := getRefName (s.ref.getD "")
        let typeName := formatSchemaName name
        (refSchemaV2 cfg f st name typeName, typeName)
      else
        match combineOf s with
        | some (l, sep) =>
          let r := parseListV2 cfg f st l
          let combineType := joinSep sep r.2
          (r.1, if combineType = "" then "" else "(" ++ combineType ++ ") | null")
        | none =>
          match s.type with
          | some (.one "integer") => (st, "number")
          | some (.one "string") =>
            match s.enumVals with
            | some es => (st, "\x27" ++ joinSep "\x27 | \x27" es ++ "\x27")
            | none => (st, "string")
          | some (.one "file") => (st, "File")
          | some (.one "array") =>
            -- array items: a sequence is translated member-wise and joined
            -- with `|`; a single node is translated and stripped of one
            -- trailing newline; the result is parenthesized when it contains
            -- `|` or `&`, then suffixed with `[]`.
            let rt : St × String :=
              match s.items with
              | some (.many l) =>
                let r := parseListV2 cfg f st l
                (r.1, joinSep " | " r.2)
              | some (.one it) =>
                let r := parseSchemaItemV2 cfg f st (some it)
                (r.1, dropTrailNL r.2)
              | none =>
                let r := parseSchemaItemV2 cfg f st none
                (r.1, dropTrailNL r.2)
            (rt.1, (if hasBarAmp rt.2 then "(" ++ rt.2 ++ ")" else rt.2) ++ "[]")
          | some (.one "object") =>
            let ro := parsePropsV2 cfg f st "\x7b\n" (s.properties.getD [])
            let ra := parseAdditionalV2 cfg f ro.1 s.additionalProperties
            (ra.1, (ro.2 ++ "\x7d\n") ++ ra.2)
          | some (.many ts) => (st, joinSep " | " ts)
          | some (.one other) => (st, other)
          | none => (st, "")
termination_by structural fuel

/-- The sequential member translation of a V2 schema list. -/
def parseListV2 (cfg : Config) (fuel : Nat) (st : St) (l : List Schema) :
    St × List String :=
  match fuel with
  | 0 => (st, [])
  | f+1 =>
    match l with
    | [] => (st, [])
    | s :: rest =>
      let r := parseSchemaItemV2 cfg f st (some s)
      let rr := parseListV2 cfg f r.1 rest
      (rr.1, r.2 :: rr.2)
termination_by structural fuel

/-- The property loop of `parseSchemaItemObject` of `ParseSchemasV2`. -/
def parsePropsV2 (cfg : Config) (fuel : Nat) (st : St) (template : String)
    (props : List (String × Schema)) : St × String :=
  match fuel with
  | 0 => (st, template)
  | f+1 =>
    match props with
    | [] => (st, template)
    | (key, propItem) :: rest =>
      let r := parseSchemaItemV2 cfg f st (some propItem)
      let propKey := cfgSafePropKey cfg key .schema
      let line :=
        if isRefField propItem.ref then
          "  " ++ propKey ++ ": " ++ r.2
        else
          (if propItem.deprecated then "/** @deprecated 已废弃 */\n" else "") ++
          "  " ++ propKey ++ ": " ++ r.2 ++ joinComment propItem.description
      parsePropsV2 cfg f r.1 (template ++ line ++ "\n") rest
termination_by structural fuel

/-- `parseSchemaItemAdditional` of `ParseSchemasV2`: only `true` and a schema
node carrying a `properties` field contribute.  The source passes the raw
`additional.properties` map to `parseSchemaItem`; a map holding none of the
schema discriminator keys (`$ref`, `allOf`, `oneOf`, `anyOf`, `type`)
translates to the empty string, which is what the `" & "` below is joined
with (maps that do hold such keys make the source throw). -/
def parseAdditionalV2 (_cfg : Config) (fuel : Nat) (st : St)
    (additional : Option AddVal) : St × String :=
  match fuel with
  | 0 => (st, "")
  | _f+1 =>
    match additional with
    | none => (st, "")
    | some .fls => (st, "")
    | some .tru => (st, " & \x7b[P:string]: any\x7d")
    | some (.schema sub) =>
      match sub.properties with
      | some _ => (st, " & " ++ "")
      | none => (st, "")

/-- `refSchema` of `ParseSchemasV2`: identical to the V3 variant except that
the container is `doc.definitions`. -/
def refSchemaV2 (cfg : Config) (fuel : Nat) (st : St) (name typeName : String) :
    St :=
  match fuel with
  | 0 => st
  | f+1 =>
    match st.schemas.lookup name with
    | none => st
    | some schemaItem =>
      if st.refs.contains typeName then st
      else
        let st1 : St := { st with refs := typeName :: st.refs }
        let r := parseSchemaItemV2 cfg f st1 (some schemaItem)
        let st3 : St := { r.1 with
          interfacesTemplate :=
            r.1.interfacesTemplate ++ [getSchemaItemComment schemaItem] }
        if isInterface schemaItem then
          { st3 with interfacesTemplate := st3.interfacesTemplate ++
              ["\ninterface " ++ typeName ++ " " ++ r.2] }
        else
          { st3 with typesTemplate := st3.typesTemplate ++
              ["\ntype " ++ typeName ++ " = " ++ r.2] }
termination_by structural fuel

end

/-- `parseRef` of `ParseSchemasV2`. -/
def parseRefV2 (cfg : Config) (fuel : Nat) (st : St) (refPath : String) :
    St × String :=
  let name := getRefName refPath
  let typeName := formatSchemaName name
  (refSchemaV2 cfg fuel st name typeName, typeName)

/-! ### Parameter parsing (`parseParamsSchema` of both classes)

The loops below return the log lines emitted by `console.log` as a separate
output component, in emission order. -/

/-- The `console.log('TODO: 未匹配 Params 的 Ref 结构', paramItem)` line for a
reference-shaped parameter. -/
def paramRefTodoLog (refPath : String) : String :=
  "TODO: 未匹配 Params 的 Ref 结构 " ++ refPath

/-- The accumulated buffers of the V3 parameter loop. -/
structure ParamsV3Out where
  st : St
  path : String
  query : String

/-- The parameter loop of `ParseSchemas.parseParamsSchema`: a reference-shaped
parameter only logs and is skipped; an inline parameter's schema (or `{}`) is
translated and its `name: type // comment` line is appended to the buffer its
`in` location selects (`path` or `query`, each opened with a brace on first
use; other locations are dropped by the switch). -/
def paramsLoopV3 (cfg : Config) (fuel : Nat) (st : St) (path query : String) :
    List ParamV3 → ParamsV3Out × List String
  | [] => (⟨st, path, query⟩, [])
  | .ref r :: rest =>
    let res := paramsLoopV3 cfg fuel st path query rest
    (res.1, paramRefTodoLog r :: res.2)
  | .inline pname loc schema descr :: rest =>
    let rs := parseSchemaItemV3 cfg fuel st (schema.getD emptySchemaNode)
    let propType :=
      "  " ++ cfgSafePropKey cfg pname .param ++ ": " ++ rs.2 ++
      joinComment descr ++ "\n"
    if loc = "path" then
      paramsLoopV3 cfg fuel rs.1
        ((if path = "" then "\x7b\n" else path) ++ propType) query rest
    else if loc = "query" then
      paramsLoopV3 cfg fuel rs.1 path
        ((if query = "" then "\x7b\n" else query) ++ propType) rest
    else
      paramsLoopV3 cfg fuel rs.1 path query rest

/-- `ParseSchemas.parseParamsSchema`: run the loop over
`operationItem.parameters || []` and close the non-empty buffers. -/
def parseParamsSchemaV3 (cfg : Config) (fuel : Nat) (st : St)
    (op : OperationV3) : ParamsV3Out × List String :=
  let r := paramsLoopV3 cfg fuel st "" "" (op.parameters.getD [])
  (⟨r.1.st,
    (if r.1.path != "" then r.1.path ++ "\x7d" else r.1.path),
    (if r.1.query != "" then r.1.query ++ "\x7d" else r.1.query)⟩, r.2)

/-- The accumulated buffers of the V2 parameter loop. -/
structure ParamsV2Out where
  st : St
  path : String
  query : String
  body : String
  isFormDataBody : Bool

/-- The parameter loop of `ParseSchemasV2.parseParamsSchema`.  Besides `path`
and `query` it accumulates a `body` buffer: a `formData` parameter appends its
line there and sets the form-data flag; a `body` parameter named exactly
`root` appends `(body && body + ' & ') + parseSchemaItem(paramItem.schema)`
to the body buffer (any other `body` parameter is dropped by the switch).
The schema translated for the `name: type` line is
`paramItem.schema || paramItem` — the parameter object itself serves as the
schema node when no explicit `schema` field is present. -/
def paramsLoopV2 (cfg : Config) (fuel : Nat) (st : St)
    (path query body : String) (isFormDataBody : Bool) :
    List ParamV2 → ParamsV2Out × List String
  | [] => (⟨st, path, query, body, isFormDataBody⟩, [])
  | .ref r :: rest =>
    let res := paramsLoopV2 cfg fuel st path query body isFormDataBody rest
    (res.1, paramRefTodoLog r :: res.2)
  | .inline pname loc schema descr self :: rest =>
    let schemaItem : Option Schema :=
      match schema with
      | some s => some s
      | none => some self
    let rs := parseSchemaItemV2 cfg fuel st schemaItem
    let propType :=
      "  " ++ cfgSafePropKey cfg pname .param ++ ": " ++ rs.2 ++
      joinComment descr ++ "\n"
    if loc = "path" then
      paramsLoopV2 cfg fuel rs.1
        ((if path = "" then "\x7b\n" else path) ++ propType) query body
        isFormDataBody rest
    else if loc = "query" then
      paramsLoopV2 cfg fuel rs.1 path
        ((if query = "" then "\x7b\n" else query) ++ propType) body
        isFormDataBody rest
    else if loc = "formData" then
      paramsLoopV2 cfg fuel rs.1 path query
        ((if body = "" then "\x7b\n" else body) ++ propType) true rest
    else if loc = "body" then
      if pname = "root" then
        let rb := parseSchemaItemV2 cfg fuel rs.1 schema
        -- `body += (body && body + ' & ') + this.parseSchemaItem(paramItem.schema);`
        paramsLoopV2 cfg fuel rb.1 path query
          (body ++ ((if body = "" then "" else body ++ " & ") ++ rb.2))
          isFormDataBody rest
      else
        paramsLoopV2 cfg fuel rs.1 path query body isFormDataBody rest
    else
      paramsLoopV2 cfg fuel rs.1 path query body isFormDataBody rest

/-- `ParseSchemasV2.parseParamsSchema`: run the loop, close the non-empty
`path`/`query` buffers, and when form data was seen wrap the body buffer as
`FormData | <body>}`. -/
def parseParamsSchemaV2 (cfg : Config) (fuel : Nat) (st : St)
    (op : OperationV2) : ParamsV2Out × List String :=
  let r := paramsLoopV2 cfg fuel st "" "" "" false (op.parameters.getD [])
  (⟨r.1.st,
    (if r.1.path != "" then r.1.path ++ "\x7d" else r.1.path),
    (if r.1.query != "" then r.1.query ++ "\x7d" else r.1.query),
    (if r.1.isFormDataBody then "FormData | " ++ r.1.body ++ "\x7d" else r.1.body),
    r.1.isFormDataBody⟩, r.2)

/-! ### Request body and response parsing -/

/-- `ParseSchemas.parseRequestBodySchema`:
`body?.content?.['application/json']?.schema || {}`, a reference body goes
through `parseRef`. -/
def parseRequestBodySchemaV3 (cfg : Config) (fuel : Nat) (st : St)
    (op : OperationV3) : St × String :=
  match op.requestBody with
  | some (.ref r) => parseRefV3 cfg fuel st r
  | some (.inline appJson) =>
    parseSchemaItemV3 cfg fuel st (appJson.getD emptySchemaNode)
  | none => parseSchemaItemV3 cfg fuel st emptySchemaNode

/-- `ParseSchemas.parseResponseSchema`: only the `'200'` response is
consulted. -/
def parseResponseSchemaV3 (cfg : Config) (fuel : Nat) (st : St)
    (op : OperationV3) : St × String :=
  match op.responses.lookup "200" with
  | some (.ref r) => parseRefV3 cfg fuel st r
  | some (.inline appJson) =>
    parseSchemaItemV3 cfg fuel st (appJson.getD emptySchemaNode)
  | none => parseSchemaItemV3 cfg fuel st emptySchemaNode

/-- `ParseSchemasV2.parseResponseSchema`: `res?.schema || {}` of the `'200'`
response. -/
def parseResponseSchemaV2 (cfg : Config) (fuel : Nat) (st : St)
    (op : OperationV2) : St × String :=
  match op.responses.lookup "200" with
  | some (.ref r) => parseRefV2 cfg fuel st r
  | some (.inline sch) =>
    parseSchemaItemV2 cfg fuel st (some (sch.getD emptySchemaNode))
  | none => parseSchemaItemV2 cfg fuel st (some emptySchemaNode)

/-! ### `parsePaths` of both classes -/

/-- The per-tag operation groups (`this.tags`), in insertion order. -/
abbrev Tags := List (String × List RequestItem)

/-- `tags[tag] || (tags[tag] = [])` followed by `requestItems.push(item)`. -/
def pushTag (tags : Tags) (tag : String) (item : RequestItem) : Tags :=
  if (tags.lookup tag).isSome then
    tags.map (fun p => if p.1 = tag then (p.1, p.2 ++ [item]) else p)
  else tags ++ [(tag, [item])]

/-- `operationItem.tags?.[0] || 'main'` (an empty first tag is falsy). -/
def firstTagOr (tags : Option (List String)) : String :=
  match tags with
  | some (t :: _) => if t != "" then t else "main"
  | _ => "main"

/-- `urlToNameReplacer ? urlToNameReplacer(url) : url`. -/
def urlNameOf (cfg : Config) (url : String) : String :=
  match cfg.urlToNameReplacer with
  | some f => f url
  | none => url

/-- The duplicate-prefix removal
`.replace(new RegExp(`(tag_)?(method)?`, 'i'), '')` of the V3 `parsePaths`:
the leftmost match of the regex starts at position 0 and greedily takes a
case-insensitive `tag_`, then a case-insensitive `method`.  (The source
interpolates `tag` into the regex verbatim; this model reads it as a literal,
which is exact whenever the tag has no regex metacharacters.) -/
def stripDupPre (tag method s : String) : String :=
  stripHeadCI method (stripHeadCI (tag ++ "_") s)

/-- The operation loop (`for (const pathItemKey in pathItem)`) of
`ParseSchemas.parsePaths` (V3): keys whose upper-case form is not an
`HttpMethods` key are skipped; the tag filter may skip the operation; the
function name is `method + pascalCase((operationId || url-name) with the
duplicate `(tag_)?(method)?` removed)`; parameters, request body and response
are parsed in that order and the `RequestItem` is pushed onto its tag
group. -/
def pathItemLoopV3 (cfg : Config) (fuel : Nat) (st : St) (tags : Tags)
    (url : String) : List (String × OperationV3) → (St × Tags) × List String
  | [] => ((st, tags), [])
  | (pathItemKey, op) :: rest =>
    if !isHttpMethodKey pathItemKey then
      pathItemLoopV3 cfg fuel st tags url rest
    else
      let method := pathItemKey
      let tag := firstTagOr op.tags
      if !tagValidate (mkTagValidator cfg) tag then
        pathItemLoopV3 cfg fuel st tags url rest
      else
        let source :=
          match op.operationId with
          | some oid => if oid != "" then oid else urlNameOf cfg url
          | none => urlNameOf cfg url
        let name := method ++ pascalCase (stripDupPre tag method source)
        let rp := parseParamsSchemaV3 cfg fuel st op
        let rb := parseRequestBodySchemaV3 cfg fuel rp.1.st op
        let rr := parseResponseSchemaV3 cfg fuel rb.1 op
        let item : RequestItem :=
          ⟨name, url, method, op.description.getD "",
           rp.1.query, rp.1.path, rb.2, rr.2, false⟩
        let rw := pathItemLoopV3 cfg fuel rr.1 (pushTag tags tag item) url rest
        (rw.1, rp.2 ++ rw.2)

/-- The URL loop of `ParseSchemas.parsePaths` (V3). -/
def pathsLoopV3 (cfg : Config) (fuel : Nat) (st : St) (tags : Tags) :
    List (String × List (String × OperationV3)) → (St × Tags) × List String
  | [] => ((st, tags), [])
  | (url, pathItem) :: rest =>
    let r1 := pathItemLoopV3 cfg fuel st tags url pathItem
    let r2 := pathsLoopV3 cfg fuel r1.1.1 r1.1.2 rest
    (r2.1, r1.2 ++ r2.2)

/-- `ParseSchemas.parsePaths` over `doc.paths || {}`. -/
def parsePathsV3 (cfg : Config) (fuel : Nat) (st : St)
    (paths : List (String × List (String × OperationV3))) :
    (St × Tags) × List String :=
  pathsLoopV3 cfg fuel st [] paths

/-- `item[k] = t` for one of the four type slots. -/
def setField (item : RequestItem) : FieldKey → String → RequestItem
  | .requestQueryType, v => { item with requestQueryType := v }
  | .requestPathType, v => { item with requestPathType := v }
  | .requestBodyType, v => { item with requestBodyType := v }
  | .responseType, v => { item with responseType := v }

/-- The resolved value a manual override writes: a literal string is used
verbatim, a data value goes through the JSON type inferencer. -/
def manualBaseToStr : ManualBase → String
  | .str s => s
  | .data j => jsonToType j

/-- `ParseSchemasV2.mergeManualTypes`: per override key, a falsy value is
skipped, a function receives the item and its result is assigned, a data
value is inferred with `jsonToType`.  The overrides write disjoint item
fields, so resolving them in iteration order is equivalent to the source's
`Promise.all` fan-out. -/
def mergeManualTypes (item : RequestItem) :
    List (FieldKey × ManualVal) → RequestItem
  | [] => item
  | (k, v) :: rest =>
    let item' :=
      match v with
      | .str s => if s != "" then setField item k s else item
      | .data j => if jsTruthy j then setField item k (jsonToType j) else item
      | .fn f => setField item k (manualBaseToStr (f item))
    mergeManualTypes item' rest

/-- The operation loop of `ParseSchemasV2.parsePaths`: the tag comes from
`getTag(path, method, operationItem)` when configured, else from the first
declared tag; the function name is `method + pascalCase(path)` where `path`
is the url after `urlToNameReplacer`; the body type and form-data flag come
from the parameter parsing; manual overrides for the exact url and method are
merged in (awaited before the generator runs; per-item and pure, so applied
in place here). -/
def pathItemLoopV2 (cfg : Config) (fuel : Nat) (st : St) (tags : Tags)
    (url : String) : List (String × OperationV2) → (St × Tags) × List String
  | [] => ((st, tags), [])
  | (pathItemKey, op) :: rest =>
    if !isHttpMethodKey pathItemKey then
      pathItemLoopV2 cfg fuel st tags url rest
    else
      let method := pathItemKey
      let namePath := urlNameOf cfg url
      let tag :=
        match cfg.getTag with
        | some g => g namePath method op
        | none => firstTagOr op.tags
      if !tagValidate (mkTagValidator cfg) tag then
        pathItemLoopV2 cfg fuel st tags url rest
      else
        let name := method ++ pascalCase namePath
        let rp := parseParamsSchemaV2 cfg fuel st op
        let rr := parseResponseSchemaV2 cfg fuel rp.1.st op
        let item : RequestItem :=
          ⟨name, url, method, op.description.getD "",
           rp.1.query, rp.1.path, rp.1.body, rr.2, rp.1.isFormDataBody⟩
        let item :=
          match (cfg.manualTypes.lookup url).bind (fun m => m.lookup method) with
          | some m => mergeManualTypes item m
          | none => item
        let rw := pathItemLoopV2 cfg fuel rr.1 (pushTag tags tag item) url rest
        (rw.1, rp.2 ++ rw.2)

/-- The URL loop of `ParseSchemasV2.parsePaths`. -/
def pathsLoopV2 (cfg : Config) (fuel : Nat) (st : St) (tags : Tags) :
    List (String × List (String × OperationV2)) → (St × Tags) × List String
  | [] => ((st, tags), [])
  | (url, pathItem) :: rest =>
    let r1 := pathItemLoopV2 cfg fuel st tags url pathItem
    let r2 := pathsLoopV2 cfg fuel r1.1.1 r1.1.2 rest
    (r2.1, r1.2 ++ r2.2)

/-- `ParseSchemasV2.parsePaths` over `doc.paths || {}`. -/
def parsePathsV2 (cfg : Config) (fuel : Nat) (st : St)
    (paths : List (String × List (String × OperationV2))) :
    (St × Tags) × List String :=
  pathsLoopV2 cfg fuel st [] paths

/-! ### The generator (`generate` of `dist/build-api/index.mjs`) -/

/-- `TYPE_NAME_SUFFIXES.params`. -/
def tsParams : String := "Params"

/-- `TYPE_NAME_SUFFIXES.pathParams`. -/
def tsPathParams : String := "PathParams"

/-- `TYPE_NAME_SUFFIXES.data`. -/
def tsData : String := "Request"

/-- `TYPE_NAME_SUFFIXES.res`. -/
def tsRes : String := "Response"

/-- `TYPE_NAME_SUFFIXES.resRoot`. -/
def tsResRoot : String := "ResponseROOT"

/-- The greedy `url.replace(/\{.+}/g, m => '${options.pathParams.' + m.slice(1))`:
the single leftmost match runs from the first `{` to the last `}` (with at
least one character between), and no further match can follow it. -/
def greedyBraceReplace (s : String) : String :=
  let cs := s.data
  match cs.findIdx? (· = lbrace) with
  | none => s
  | some i =>
    match cs.reverse.findIdx? (· = rbrace) with
    | none => s
    | some ri =>
      let j := cs.length - 1 - ri
      if i + 2 ≤ j then
        String.mk (cs.take i) ++ "$\x7boptions.pathParams." ++
        String.mk ((cs.drop (i+1)).take (j - i)) ++ String.mk (cs.drop (j+1))
      else s

/-- `formatURL` of `generate`: drop the configured URL head when the url
starts with it, prepend the configured url prefix, and rewrite the `{...}`
path placeholder. -/
def formatURL (cfg : Config) (url : String) : String :=
  let url1 :=
    match cfg.removeUrlPre with
    | some p => if strStartsB url p then String.mk (url.data.drop p.data.length) else url
    | none => url
  (cfg.urlPre.getD "") ++ greedyBraceReplace url1

/-- `createReturnType`: with a configured `customResponseReturnPath` the
response reference moves from the call's type application into the declared
`Promise` return type, projected by the bracketed path. -/
def createReturnType (cfg : Config) (apiRefPre : String) : String × String :=
  let ref := apiRefPre ++ tsRes
  match cfg.customResponseReturnPath with
  | some p =>
    if p = "" then ("<" ++ ref ++ ">", "")
    else
      let pathRef :=
        String.join (((splitChar '.' p.data).map String.mk).filter (· != "")
          |>.map (fun q => "[\x27" ++ q ++ "\x27]"))
      ("", ": Promise<" ++ ref ++ pathRef ++ ">")
  | none => ("<" ++ ref ++ ">", "")

/-- `/^(post|put)/.test(requestItem.method)` (case sensitive). -/
def methodIsPostPut (m : String) : Bool := strStartsB m "post" || strStartsB m "put"

/-- `createFunctionTemplate` of `generate`: assemble one request function.
`apiRefPre` is the `API.<Scope>.<Tag>.<OperationName>` reference built at the
call site.  The parameter list includes a `data` member exactly when the
item's body type is non-empty, and the call passes `options.data` exactly
when additionally the method matches `/^(post|put)/`. -/
def createFunctionTemplate (cfg : Config) (apiRefPre : String)
    (item : RequestItem) (ssr : Bool) : String :=
  let argsTemplate :=
    ([ (if ssr then "ctx: RequestContext;" else ""),
       (if item.requestPathType != "" then
         "pathParams: " ++ apiRefPre ++ tsPathParams ++ ";" else ""),
       (if item.requestBodyType != "" then
         "data: Partial<" ++ apiRefPre ++ tsData ++ ">;" else ""),
       (if item.requestQueryType != "" then
         "params: Partial<" ++ apiRefPre ++ tsParams ++ ">;" else ""),
       "config?: AxiosRequestConfig" ]).filter (· != "")
  let urlArg := "\x60" ++ formatURL cfg item.url ++ "\x60"
  let dataArg :=
    if item.requestBodyType != "" && methodIsPostPut item.method
    then "options.data" else ""
  let configArg :=
    if item.requestQueryType != ""
    then "\x7b ...options.config, params: options.params \x7d"
    else "options.config"
  let rt := createReturnType cfg apiRefPre
  let inApply := rt.1
  let inReturn := rt.2
  joinSep "\n"
    [ (if item.description != "" then
        "\n/** " ++ (if ssr then "SSR: " else "") ++ item.description ++ " */"
       else ""),
      "export function " ++ item.name ++ (if ssr then "SSR" else "") ++
        "(options: \x7b " ++ joinSep " " argsTemplate ++ " \x7d)" ++
        inReturn ++ " \x7b",
      (if ssr then
        "  return requestSSR" ++ inApply ++ "(options.ctx, \x7b " ++
        joinSep ", "
          (([ "...options.config",
              "method: \x27" ++ item.method ++ "\x27",
              "url: " ++ urlArg,
              (if dataArg != "" then "data: options.data" else ""),
              (if item.requestQueryType != "" then "params: options.params" else "")
            ]).filter (· != "")) ++ " \x7d)"
      else
        "  return httpClient." ++ item.method ++ inApply ++ "(" ++
        joinSep ", " (([urlArg, dataArg, configArg]).filter (· != "")) ++ ")"),
      "\x7d",
      "" ]

/-! ### Claim-side definitions

These definitions render claim sentences, to be compared against the
source-derived definitions above. -/

/-- The name a `\ninterface <N> ...` or `\ntype <N> ...` template chunk
declares, when the chunk is a declaration chunk. -/
def declNameL (c : List Char) : Option (List Char) :=
  if ("\ninterface ".data).isPrefixOf c then
    some ((c.drop 11).takeWhile (· ≠ ' '))
  else if ("\ntype ".data).isPrefixOf c then
    some ((c.drop 6).takeWhile (· ≠ ' '))
  else none

/-- How many backing declarations for the type name `tn` the two template
buffers hold. -/
def declCount (st : St) (tn : String) : Nat :=
  (st.typesTemplate ++ st.interfacesTemplate).countP
    (fun c => declNameL c.data == some tn.data)

/-- The identifier pattern of claim C7: starts with a letter, `$` or
underscore and contains only word characters — single-character keys
included. -/
def isIdentLikeClaim (k : String) : Bool :=
  match k.data with
  | [] => false
  | c :: rest => isKeyHeadC c && rest.all isWordC

/-- The function name claim C5 prescribes for an operation of either dialect:
the method, then pascal case of the operation id (or of the possibly
replaced url), with the duplicate `(tag_)?(method)?` stripped first. -/
def claimC5Name (method tag : String) (operationId : Option String)
    (url : String) (repl : Option (String → String)) : String :=
  method ++ pascalCase (stripDupPre tag method
    (operationId.getD (match repl with | some f => f url | none => url)))

/-- The tag-filter formula of claim C2, over the configured label lists read
as sets: accept iff (the include set is empty or the tag is in it) and not
(the exclude set is non-empty and the tag is in it), case-insensitively. -/
def claimC2Formula (inc exc : Option (List String)) (t : String) : Prop :=
  ((inc.getD []).map strUpper = [] ∨ strUpper t ∈ (inc.getD []).map strUpper) ∧
  ¬((exc.getD []).map strUpper ≠ [] ∧ strUpper t ∈ (exc.getD []).map strUpper)

/-- The log line a V3 parameter contributes: reference-shaped parameters log
the TODO warning, inline parameters log nothing. -/
def paramLogV3 : ParamV3 → Option String
  | .ref r => some (paramRefTodoLog r)
  | .inline _ _ _ _ => none

/-- The log line a V2 parameter contributes. -/
def paramLogV2 : ParamV2 → Option String
  | .ref r => some (paramRefTodoLog r)
  | .inline _ _ _ _ _ => none

/-- A string without space characters (formatted schema names have this
shape, which makes the declaration chunks parse back unambiguously). -/
def noSpaceStr (s : String) : Prop := ∀ c ∈ s.data, c ≠ ' '

/-- What one translator call may do to the instance state: the schema
container is read-only, the ref registry only grows, and the declaration
count of every already-registered type name is unchanged. -/
def Pres (st out : St) : Prop :=
  out.schemas = st.schemas ∧
  (∀ x, x ∈ st.refs → x ∈ out.refs) ∧
  (∀ tn : String, tn ∈ st.refs → declCount out tn = declCount st tn)

/-- An inline array schema node with a single `items` node (all other fields
absent). -/
def mkArraySchemaOne (item : Schema) : Schema :=
  .mk none (some (.one "array")) none none (some (.one item)) none
    none none none none false

/-! ### Concrete fixtures used by the scenario theorems -/

/-- A translator state with no schemas and empty registry and buffers. -/
def st0 : St := ⟨[], [], [], []⟩

/-- The inline schema `{ type: 'string', enum: ['a', 'b'] }`. -/
def enumABSchema : Schema :=
  .mk none (some (.one "string")) (some ["a", "b"]) none none none
    none none none none false

/-- The inline schema `{ type: 'string' }`. -/
def strSchema : Schema :=
  .mk none (some (.one "string")) none none none none none none none none false

/-- The inline schema `{ type: 'integer' }`. -/
def intSchema : Schema :=
  .mk none (some (.one "integer")) none none none none none none none none false

/-- A V2 operation with two `in: body` parameters named `root` (string and
integer schemas), the failing input of claim C4. -/
def opTwoRoots : OperationV2 :=
  ⟨none, none, none,
   some [.inline "root" "body" (some strSchema) none strSchema,
         .inline "root" "body" (some intSchema) none intSchema],
   []⟩

/-- A V2 operation with two `in: formData` parameters, the form-data scenario
of claim C6. -/
def opTwoFormData : OperationV2 :=
  ⟨none, none, none,
   some [.inline "file" "formData" (some strSchema) none strSchema,
         .inline "memo" "formData" (some strSchema) none strSchema],
   []⟩

/-- A V2 operation carrying an explicit `operationId` and a first tag, the
counterexample input of claim C5. -/
def opWithOperationId : OperationV2 :=
  ⟨some ["user"], some "user_list", none, none, []⟩

/-- A fresh translator state whose document holds one schema named `user`. -/
def c1St : St := ⟨[("user", strSchema)], [], [], []⟩

/-- A V3 operation carrying an explicit `operationId` and a first tag, the
witness input of claim C5. -/
def opV3WithId : OperationV3 :=
  ⟨some ["user"], some "user_list", none, none, none, []⟩

/-! ## Theorems

General helper lemmas first, then one theorem per claim (with witnesses and
counterexamples where the claim's status calls for them). -/

theorem strData_append (a b : String) : (a ++ b).data = a.data ++ b.data := rfl

theorem isPrefixOf_self_append (p q : List Char) :
    p.isPrefixOf (p ++ q) = true := by
  induction p with
  | nil => simp [List.isPrefixOf]
  | cons a as ih => simp [List.isPrefixOf, ih]

theorem listInfixB_of_isPre (n h : List Char) (hp : n.isPrefixOf h = true) :
    listInfixB n h = true := by
  cases h with
  | nil =>
    cases n with
    | nil => rfl
    | cons c cs => simp [List.isPrefixOf] at hp
  | cons c rest => simp [listInfixB, hp]

theorem listInfixB_cons (n : List Char) (c : Char) (h : List Char)
    (ih : listInfixB n h = true) : listInfixB n (c :: h) = true := by
  simp [listInfixB, ih]

theorem listInfixB_here (needle pre post : List Char) :
    listInfixB needle (pre ++ (needle ++ post)) = true := by
  induction pre with
  | nil => exact listInfixB_of_isPre _ _ (isPrefixOf_self_append _ _)
  | cons c cs ih => exact listInfixB_cons _ _ _ ih

theorem strStartsB_of_data (s pre : String) (r : List Char)
    (h : s.data = pre.data ++ r) : strStartsB s pre = true := by
  rw [strStartsB, h]
  exact isPrefixOf_self_append _ _

theorem strContainsB_of_data (s sub : String) (a b : List Char)
    (h : s.data = a ++ (sub.data ++ b)) : strContainsB s sub = true := by
  rw [strContainsB, h]
  exact listInfixB_here _ _ _

theorem strBne_empty (s : String) (h : s.data ≠ []) : (s != "") = true := by
  rw [bne_iff_ne]
  intro hc
  exact h (by rw [hc])

theorem takeWhile_append_stop {α} (p : α → Bool) (l : List α) (x : α)
    (r : List α) (hl : ∀ c ∈ l, p c = true) (hx : p x = false) :
    (l ++ x :: r).takeWhile p = l := by
  induction l with
  | nil => simp [List.takeWhile_cons, hx]
  | cons a as ih =>
    have ha := hl a (by simp)
    simp only [List.cons_append, List.takeWhile_cons, ha, cond_true]
    rw [ih (fun c hc => hl c (by simp [hc]))]
    simp

theorem ofNat_toNat_small (n : Nat) (h : n < 55296) : (Char.ofNat n).toNat = n := by
  have hv : n.isValidChar := Or.inl h
  simp only [Char.ofNat, dif_pos hv, Char.ofNatAux, Char.toNat, UInt32.toNat]
  simp

theorem isAlnumC_toUpper (c : Char) (h : isAlnumC c = true) :
    isAlnumC (Char.toUpper c) = true := by
  simp only [Char.toUpper]
  by_cases hc : c.toNat ≥ 97 ∧ c.toNat ≤ 122
  · rw [if_pos hc]
    simp only [isAlnumC, isAsciiUpper, isAsciiLower, isAsciiDigit] at *
    rw [ofNat_toNat_small _ (by omega)]
    simp only [Bool.or_eq_true, Bool.and_eq_true, decide_eq_true_eq] at *
    omega
  · rw [if_neg hc]
    exact h

theorem isAlnumC_toLower (c : Char) (h : isAlnumC c = true) :
    isAlnumC (Char.toLower c) = true := by
  simp only [Char.toLower]
  by_cases hc : c.toNat ≥ 65 ∧ c.toNat ≤ 90
  · rw [if_pos hc]
    simp only [isAlnumC, isAsciiUpper, isAsciiLower, isAsciiDigit] at *
    rw [ofNat_toNat_small _ (by omega)]
    simp only [Bool.or_eq_true, Bool.and_eq_true, decide_eq_true_eq] at *
    omega
  · rw [if_neg hc]
    exact h

theorem isAlnumC_ne_space (c : Char) (h : isAlnumC c = true) : c ≠ ' ' := by
  intro he
  subst he
  simp [isAlnumC, isAsciiUpper, isAsciiLower, isAsciiDigit] at h

/-- Every character of every word the change-case splitter produces is
alphanumeric. -/
theorem camelSplitAux_chars (l : List Char) : ∀ (cur : List Char),
    (∀ c ∈ cur, isAlnumC c = true) →
    ∀ w ∈ camelSplitAux cur l, ∀ c ∈ w, isAlnumC c = true := by
  induction l with
  | nil =>
    intro cur hcur w hw c hc
    by_cases h0 : cur = []
    · simp [camelSplitAux, h0] at hw
    · simp only [camelSplitAux, if_neg h0, List.mem_singleton] at hw
      subst hw
      exact hcur c (List.mem_reverse.mp hc)
  | cons a rest ih =>
    intro cur hcur w hw c hc
    simp only [camelSplitAux] at hw
    split at hw
    · -- separator character: flush the current word
      rcases List.mem_append.mp hw with hw1 | hw2
      · split at hw1
        · simp at hw1
        · simp only [List.mem_singleton] at hw1
          subst hw1
          exact hcur c (List.mem_reverse.mp hc)
      · exact ih [] (by simp) w hw2 c hc
    · -- alphanumeric character
      next ha =>
      have ha' : isAlnumC a = true := by
        cases h : isAlnumC a
        · exact absurd h ha
        · rfl
      have hac : ∀ x ∈ a :: cur, isAlnumC x = true := by
        intro x hx
        rcases List.mem_cons.mp hx with h | h
        · subst h; exact ha'
        · exact hcur x h
      split at hw
      · -- cur = []
        exact ih [a] (by simpa using ha') w hw c hc
      · -- cur = p :: ps
        next p ps =>
        have hcur' : ∀ x ∈ p :: ps, isAlnumC x = true := hcur
        split at hw
        · rcases List.mem_cons.mp hw with hw1 | hw2
          · subst hw1
            exact hcur' c (List.mem_reverse.mp hc)
          · exact ih [a] (by simpa using ha') w hw2 c hc
        · split at hw
          · rcases List.mem_cons.mp hw with hw1 | hw2
            · subst hw1
              exact hcur' c (List.mem_reverse.mp hc)
            · exact ih [a] (by simpa using ha') w hw2 c hc
          · exact ih (a :: p :: ps) (by
              intro x hx
              exact hac x hx) w hw c hc

/-- The pascal word transform only produces alphanumerics and underscores. -/
theorem pascalWord_chars (i : Nat) (w : List Char)
    (hw : ∀ c ∈ w, isAlnumC c = true) :
    ∀ c ∈ pascalWord i w, (isAlnumC c || c = '_') = true := by
  intro c hc
  cases w with
  | nil => simp [pascalWord] at hc
  | cons a as =>
    have ha := hw a (by simp)
    have has : ∀ x ∈ as.map Char.toLower, (isAlnumC x || x = '_') = true := by
      intro x hx
      rcases List.mem_map.mp hx with ⟨y, hy, hxy⟩
      subst hxy
      simp [isAlnumC_toLower y (hw y (by simp [hy]))]
    simp only [pascalWord] at hc
    split at hc
    · rcases List.mem_cons.mp hc with h | h
      · subst h; simp
      · rcases List.mem_cons.mp h with h' | h'
        · subst h'; simp [ha]
        · exact has c h'
    · rcases List.mem_cons.mp hc with h | h
      · subst h
        simp [isAlnumC_toUpper a ha]
      · exact has c h

/-- Every character of a `pascalCase` result is alphanumeric or an
underscore; in particular there is no space. -/
theorem pascalCase_chars (s : String) :
    ∀ c ∈ (pascalCase s).data, (isAlnumC c || c = '_') = true := by
  intro c hc
  have hsplit := camelSplitAux_chars s.data [] (by simp)
  simp only [pascalCase] at hc
  split at hc
  · simp at hc
  · next w ws heq =>
    have hw : ∀ x ∈ w, isAlnumC x = true :=
      hsplit w (by rw [heq]; simp)
    rcases List.mem_append.mp hc with h | h
    · exact pascalWord_chars 0 w hw c h
    · rcases List.mem_flatten.mp h with ⟨l, hl, hcl⟩
      rcases List.mem_map.mp hl with ⟨w', hw', hlw⟩
      subst hlw
      have hw'' : ∀ x ∈ w', isAlnumC x = true :=
        hsplit w' (by rw [heq]; simp [hw'])
      exact pascalWord_chars 1 w' hw'' c hcl

/-- A formatted schema name contains no space character. -/
theorem formatSchemaName_noSpace (n : String) : noSpaceStr (formatSchemaName n) := by
  intro c hc hsp
  have h := pascalCase_chars (stripApiDot n) c hc
  rcases Bool.or_eq_true_iff.mp h with h1 | h2
  · exact isAlnumC_ne_space c h1 hsp
  · rw [hsp] at h2
    simp at h2

/-- A `\ninterface <tn> <body>` chunk parses back to the name `tn` when `tn`
has no spaces. -/
theorem declNameL_iface (tn body : String) (h : noSpaceStr tn) :
    declNameL ("\ninterface " ++ tn ++ " " ++ body).data = some tn.data := by
  have hdata : ("\ninterface " ++ tn ++ " " ++ body).data =
      "\ninterface ".data ++ (tn.data ++ (' ' :: body.data)) := by
    simp [strData_append, List.append_assoc]
  rw [declNameL, hdata, if_pos (isPrefixOf_self_append _ _)]
  have hlen : ("\ninterface ".data).length = 11 := rfl
  rw [show (11 : Nat) = ("\ninterface ".data).length from rfl,
    List.drop_left, takeWhile_append_stop _ tn.data ' ' body.data
      (fun c hc => by simpa using h c hc) (by simp)]

/-- A `\ntype <tn> = <body>` chunk parses back to the name `tn` when `tn` has
no spaces. -/
theorem declNameL_type (tn body : String) (h : noSpaceStr tn) :
    declNameL ("\ntype " ++ tn ++ " = " ++ body).data = some tn.data := by
  have hdata : ("\ntype " ++ tn ++ " = " ++ body).data =
      "\ntype ".data ++ (tn.data ++ (' ' :: ('=' :: ' ' :: body.data))) := by
    simp [strData_append, List.append_assoc]
  have hnot : (("\ninterface ".data).isPrefixOf
      ("\ntype ".data ++ (tn.data ++ (' ' :: ('=' :: ' ' :: body.data))))) = false := rfl
  rw [declNameL, hdata, hnot]
  simp only [Bool.false_eq_true, if_false]
  rw [if_pos (isPrefixOf_self_append _ _)]
  rw [show (6 : Nat) = ("\ntype ".data).length from rfl,
    List.drop_left, takeWhile_append_stop _ tn.data ' ' _
      (fun c hc => by simpa using h c hc) (by simp)]

/-- Schema comments never parse as declaration chunks. -/
theorem declNameL_comment (σ : Schema) :
    declNameL (getSchemaItemComment σ).data = none := by
  rw [getSchemaItemComment]
  by_cases hr : isRefField σ.ref
  · rw [if_pos hr]; rfl
  · rw [if_neg hr]
    by_cases hc : σ.description.getD "" = "" <;>
      by_cases hd : σ.deprecated = true <;>
      simp only [hc, hd, if_pos, if_neg, if_true, if_false] <;> rfl

/-- Appending a chunk to the types buffer adds the chunk's declaration-name
indicator to every count. -/
theorem declCount_addType (st : St) (chunk : String) (tn : String) :
    declCount { st with typesTemplate := st.typesTemplate ++ [chunk] } tn =
      declCount st tn + (if declNameL chunk.data == some tn.data then 1 else 0) := by
  simp only [declCount, List.append_assoc, List.countP_append, List.countP_cons,
    List.countP_nil]
  cases h : (declNameL chunk.data == some tn.data) <;> simp [h] <;> omega

/-- Appending a chunk to the interfaces buffer adds the chunk's
declaration-name indicator to every count. -/
theorem declCount_addIface (st : St) (chunk : String) (tn : String) :
    declCount { st with interfacesTemplate := st.interfacesTemplate ++ [chunk] } tn =
      declCount st tn + (if declNameL chunk.data == some tn.data then 1 else 0) := by
  simp only [declCount, List.append_assoc, List.countP_append, List.countP_cons,
    List.countP_nil]
  cases h : (declNameL chunk.data == some tn.data) <;> simp [h] <;> omega

/-- `declCount` only reads the two template buffers. -/
theorem declCount_register (st : St) (x : String) (tn : String) :
    declCount { st with refs := x :: st.refs } tn = declCount st tn := rfl

theorem presRefl (st : St) : Pres st st :=
  ⟨rfl, fun _ h => h, fun _ _ => rfl⟩

theorem presTrans {a b c : St} (h1 : Pres a b) (h2 : Pres b c) : Pres a c := by
  obtain ⟨s1, m1, d1⟩ := h1
  obtain ⟨s2, m2, d2⟩ := h2
  exact ⟨by rw [s2, s1], fun x hx => m2 x (m1 x hx),
    fun tn htn => by rw [d2 tn (m1 tn htn), d1 tn htn]⟩

/-- The register-and-emit branch of `refSchema` (shared by both dialects)
preserves `Pres` relative to the state before registration. -/
theorem refBranchPres (st : St) (σ : Schema) (tn : String) (inner : St × String)
    (hns : noSpaceStr tn) (hfresh : tn ∉ st.refs)
    (hA : Pres { st with refs := tn :: st.refs } inner.1) :
    Pres st (
      let st3 : St := { inner.1 with interfacesTemplate :=
        inner.1.interfacesTemplate ++ [getSchemaItemComment σ] }
      if isInterface σ then
        { st3 with interfacesTemplate := st3.interfacesTemplate ++
            ["\ninterface " ++ tn ++ " " ++ inner.2] }
      else
        { st3 with typesTemplate := st3.typesTemplate ++
            ["\ntype " ++ tn ++ " = " ++ inner.2] }) := by
  obtain ⟨hsch, hmono, hdecl⟩ := hA
  by_cases hint : isInterface σ = true
  · simp only [hint, if_true]
    refine ⟨by simpa using hsch, ?_, ?_⟩
    · intro x hx
      exact hmono x (List.mem_cons_of_mem _ hx)
    · intro tn' htn'
      have hne : tn' ≠ tn := fun he => hfresh (he ▸ htn')
      have h1 : declCount { inner.1 with interfacesTemplate :=
          inner.1.interfacesTemplate ++ [getSchemaItemComment σ] } tn' =
          declCount inner.1 tn' := by
        rw [declCount_addIface]
        simp [declNameL_comment σ]
      have step : declCount ({ inner.1 with interfacesTemplate :=
          (inner.1.interfacesTemplate ++ [getSchemaItemComment σ]) ++
          ["\ninterface " ++ tn ++ " " ++ inner.2] } : St) tn' =
          declCount inner.1 tn' := by
        have := declCount_addIface
          { inner.1 with interfacesTemplate :=
            inner.1.interfacesTemplate ++ [getSchemaItemComment σ] }
          ("\ninterface " ++ tn ++ " " ++ inner.2) tn'
        simp only at this
        rw [this, h1, declNameL_iface tn inner.2 hns]
        have : (some tn.data == some tn'.data) = false := by
          simp only [beq_eq_false_iff_ne, ne_eq, Option.some.injEq]
          intro hdd
          exact hne (String.ext hdd).symm
        simp [this]
      rw [step, hdecl tn' (List.mem_cons_of_mem _ htn'), declCount_register]
  · simp only [Bool.not_eq_true] at hint
    simp only [hint, Bool.false_eq_true, if_false]
    refine ⟨by simpa using hsch, ?_, ?_⟩
    · intro x hx
      exact hmono x (List.mem_cons_of_mem _ hx)
    · intro tn' htn'
      have hne : tn' ≠ tn := fun he => hfresh (he ▸ htn')
      have h1 : declCount { inner.1 with interfacesTemplate :=
          inner.1.interfacesTemplate ++ [getSchemaItemComment σ] } tn' =
          declCount inner.1 tn' := by
        rw [declCount_addIface]
        simp [declNameL_comment σ]
      have step : declCount ({ inner.1 with
          interfacesTemplate := inner.1.interfacesTemplate ++ [getSchemaItemComment σ],
          typesTemplate := inner.1.typesTemplate ++
            ["\ntype " ++ tn ++ " = " ++ inner.2] } : St) tn' =
          declCount inner.1 tn' := by
        have h2 := declCount_addType
          { inner.1 with interfacesTemplate :=
            inner.1.interfacesTemplate ++ [getSchemaItemComment σ] }
          ("\ntype " ++ tn ++ " = " ++ inner.2) tn'
        simp only at h2
        rw [h2, h1, declNameL_type tn inner.2 hns]
        have : (some tn.data == some tn'.data) = false := by
          simp only [beq_eq_false_iff_ne, ne_eq, Option.some.injEq]
          intro hdd
          exact hne (String.ext hdd).symm
        simp [this]
      rw [step, hdecl tn' (List.mem_cons_of_mem _ htn'), declCount_register]

/-- Every V3 translator method preserves `Pres`: the schema container is
read-only, the ref registry grows monotonically, and no registered name's
declaration count changes. -/
theorem presV3All (cfg : Config) : ∀ fuel : Nat,
    (∀ st s, Pres st (parseSchemaItemV3 cfg fuel st s).1) ∧
    (∀ st l, Pres st (parseListV3 cfg fuel st l).1) ∧
    (∀ st tpl pr, Pres st (parsePropsV3 cfg fuel st tpl pr).1) ∧
    (∀ st ad, Pres st (parseAdditionalV3 cfg fuel st ad).1) ∧
    (∀ st n tn, noSpaceStr tn → Pres st (refSchemaV3 cfg fuel st n tn)) := by
  intro fuel
  induction fuel with
  | zero =>
    exact ⟨fun st s => presRefl st, fun st l => presRefl st,
      fun st tpl pr => presRefl st, fun st ad => presRefl st,
      fun st n tn _ => presRefl st⟩
  | succ f ih =>
    obtain ⟨ihA, ihB, ihC, ihF, ihE⟩ := ih
    refine ⟨fun st s => ?_, fun st l => ?_, fun st tpl pr => ?_,
      fun st ad => ?_, fun st n tn hns => ?_⟩
    · -- parseSchemaItemV3
      simp only [parseSchemaItemV3]
      by_cases hr : isRefField s.ref
      · rw [if_pos hr]
        exact ihE st _ _ (formatSchemaName_noSpace _)
      · rw [if_neg hr]
        split
        · exact ihB st _
        · split
          · exact presRefl st
          · split
            · exact presRefl st
            · exact presRefl st
          · split
            · exact ihA st _
            · exact presRefl st
            · exact presRefl st
          · exact presTrans (ihC st _ _) (ihF _ _)
          · exact presRefl st
          · exact presRefl st
          · exact presRefl st
    · -- parseListV3
      simp only [parseListV3]
      split
      · exact presRefl st
      · exact presTrans (ihA st _) (ihB _ _)
    · -- parsePropsV3
      simp only [parsePropsV3]
      split
      · exact presRefl st
      · exact presTrans (ihA st _) (ihC _ _ _)
    · -- parseAdditionalV3
      simp only [parseAdditionalV3]
      split
      · exact presRefl st
      · exact presRefl st
      · exact presRefl st
      · exact ihA st _
    · -- refSchemaV3
      simp only [refSchemaV3]
      split
      · exact presRefl st
      · split
        · exact presRefl st
        · next σ hσ hcon =>
          have hfresh : tn ∉ st.refs := by
            intro hm
            exact hcon (by simpa [List.elem_iff] using hm)
          exact refBranchPres st σ tn _ hns hfresh (ihA _ σ)

/-- The V2 additional-properties translation never touches the state. -/
theorem parseAdditionalV2_state (cfg : Config) (fuel : Nat) (st : St)
    (ad : Option AddVal) : (parseAdditionalV2 cfg fuel st ad).1 = st := by
  cases fuel with
  | zero => rfl
  | succ f =>
    cases ad with
    | none => rfl
    | some v =>
      cases v with
      | tru => rfl
      | fls => rfl
      | schema sub =>
        rcases h : sub.properties with _ | l <;> simp [parseAdditionalV2, h]

/-- Every V2 translator method preserves `Pres`. -/
theorem presV2All (cfg : Config) : ∀ fuel : Nat,
    (∀ st os, Pres st (parseSchemaItemV2 cfg fuel st os).1) ∧
    (∀ st l, Pres st (parseListV2 cfg fuel st l).1) ∧
    (∀ st tpl pr, Pres st (parsePropsV2 cfg fuel st tpl pr).1) ∧
    (∀ st n tn, noSpaceStr tn → Pres st (refSchemaV2 cfg fuel st n tn)) := by
  intro fuel
  induction fuel with
  | zero =>
    exact ⟨fun st os => presRefl st, fun st l => presRefl st,
      fun st tpl pr => presRefl st, fun st n tn _ => presRefl st⟩
  | succ f ih =>
    obtain ⟨ihA, ihB, ihC, ihE⟩ := ih
    refine ⟨fun st os => ?_, fun st l => ?_, fun st tpl pr => ?_,
      fun st n tn hns => ?_⟩
    · -- parseSchemaItemV2
      simp only [parseSchemaItemV2]
      split
      · exact presRefl st
      · next s =>
        by_cases hr : isRefField s.ref
        · rw [if_pos hr]
          exact ihE st _ _ (formatSchemaName_noSpace _)
        · rw [if_neg hr]
          split
          · exact ihB st _
          · split
            · exact presRefl st
            · split
              · exact presRefl st
              · exact presRefl st
            · exact presRefl st
            · -- array: the inner match picks one of the three item shapes
              refine presTrans (b := (match s.items with
                | some (.many l) =>
                  let r := parseListV2 cfg f st l
                  (r.1, joinSep " | " r.2)
                | some (.one it) =>
                  let r := parseSchemaItemV2 cfg f st (some it)
                  (r.1, dropTrailNL r.2)
                | none =>
                  let r := parseSchemaItemV2 cfg f st none
                  (r.1, dropTrailNL r.2)).1) ?_ (presRefl _)
              split
              · exact ihB st _
              · exact ihA st _
              · exact ihA st _
            · exact presTrans (ihC st _ _) (by
                rw [parseAdditionalV2_state]
                exact presRefl _)
            · exact presRefl st
            · exact presRefl st
            · exact presRefl st
    · -- parseListV2
      simp only [parseListV2]
      split
      · exact presRefl st
      · exact presTrans (ihA st _) (ihB _ _)
    · -- parsePropsV2
      simp only [parsePropsV2]
      split
      · exact presRefl st
      · exact presTrans (ihA st _) (ihC _ _ _)
    · -- refSchemaV2
      simp only [refSchemaV2]
      split
      · exact presRefl st
      · split
        · exact presRefl st
        · next σ hσ hcon =>
          have hfresh : tn ∉ st.refs := by
            intro hm
            exact hcon (by simpa [List.elem_iff] using hm)
          exact refBranchPres st σ tn _ hns hfresh (ihA _ (some σ))

/-- The register-and-emit branch of `refSchema` (shared by both dialects)
emits exactly one backing declaration for the registered name, registers it,
and leaves the schema container unchanged. -/
theorem refBranchCount (st : St) (σ : Schema) (tn : String) (inner : St × String)
    (hns : noSpaceStr tn) (hfresh : tn ∉ st.refs)
    (hA : Pres { st with refs := tn :: st.refs } inner.1)
    (hzero : declCount st tn = 0) :
    (let st3 : St := { inner.1 with interfacesTemplate :=
        inner.1.interfacesTemplate ++ [getSchemaItemComment σ] }
     let out : St :=
      if isInterface σ then
        { st3 with interfacesTemplate := st3.interfacesTemplate ++
            ["\ninterface " ++ tn ++ " " ++ inner.2] }
      else
        { st3 with typesTemplate := st3.typesTemplate ++
            ["\ntype " ++ tn ++ " = " ++ inner.2] }
     declCount out tn = 1 ∧ tn ∈ out.refs ∧ out.schemas = st.schemas) := by
  obtain ⟨hsch, hmono, hdecl⟩ := hA
  have hmem : tn ∈ inner.1.refs := hmono tn (by simp)
  have hcnt : declCount inner.1 tn = 0 := by
    rw [hdecl tn (by simp), declCount_register, hzero]
  have h1 : declCount { inner.1 with interfacesTemplate :=
      inner.1.interfacesTemplate ++ [getSchemaItemComment σ] } tn =
      declCount inner.1 tn := by
    rw [declCount_addIface]
    simp [declNameL_comment σ]
  by_cases hint : isInterface σ = true
  · simp only [hint, if_true]
    refine ⟨?_, hmem, by simpa using hsch⟩
    have h2 := declCount_addIface
      { inner.1 with interfacesTemplate :=
        inner.1.interfacesTemplate ++ [getSchemaItemComment σ] }
      ("\ninterface " ++ tn ++ " " ++ inner.2) tn
    simp only at h2
    rw [h2, h1, hcnt, declNameL_iface tn inner.2 hns]
    simp
  · simp only [Bool.not_eq_true] at hint
    simp only [hint, Bool.false_eq_true, if_false]
    refine ⟨?_, hmem, by simpa using hsch⟩
    have h2 := declCount_addType
      { inner.1 with interfacesTemplate :=
        inner.1.interfacesTemplate ++ [getSchemaItemComment σ] }
      ("\ntype " ++ tn ++ " = " ++ inner.2) tn
    simp only at h2
    rw [h2, h1, hcnt, declNameL_type tn inner.2 hns]
    simp

/-- A reference whose formatted name is already registered leaves the V3
state untouched, at every fuel. -/
theorem refSchemaV3_skip (cfg : Config) (fuel : Nat) (st : St) (n tn : String)
    (h : tn ∈ st.refs) : refSchemaV3 cfg fuel st n tn = st := by
  cases fuel with
  | zero => rfl
  | succ f =>
    simp only [refSchemaV3]
    split
    · rfl
    · rw [if_pos (by simpa [List.elem_iff] using h)]

/-- A reference whose formatted name is already registered leaves the V2
state untouched, at every fuel. -/
theorem refSchemaV2_skip (cfg : Config) (fuel : Nat) (st : St) (n tn : String)
    (h : tn ∈ st.refs) : refSchemaV2 cfg fuel st n tn = st := by
  cases fuel with
  | zero => rfl
  | succ f =>
    simp only [refSchemaV2]
    split
    · rfl
    · rw [if_pos (by simpa [List.elem_iff] using h)]

/-- Resolving a fresh reference to a present schema in the V3 dialect emits
its backing declaration exactly once, registers the name, and keeps the
schema container. -/
theorem refSchemaV3_fresh (cfg : Config) (f : Nat) (st : St) (n tn : String)
    (σ : Schema) (hσ : st.schemas.lookup n = some σ) (hfresh : tn ∉ st.refs)
    (hns : noSpaceStr tn) (hzero : declCount st tn = 0) :
    declCount (refSchemaV3 cfg (f+1) st n tn) tn = 1 ∧
    tn ∈ (refSchemaV3 cfg (f+1) st n tn).refs ∧
    (refSchemaV3 cfg (f+1) st n tn).schemas = st.schemas := by
  have hcon : st.refs.contains tn = false := by
    cases hcc : st.refs.contains tn
    · rfl
    · exact absurd (by simpa [List.elem_iff] using hcc) hfresh
  simp only [refSchemaV3, hσ, hcon, Bool.false_eq_true, if_false]
  exact refBranchCount st σ tn _ hns hfresh ((presV3All cfg f).1 _ σ) hzero

/-- Resolving a fresh reference to a present schema in the V2 dialect emits
its backing declaration exactly once, registers the name, and keeps the
schema container. -/
theorem refSchemaV2_fresh (cfg : Config) (f : Nat) (st : St) (n tn : String)
    (σ : Schema) (hσ : st.schemas.lookup n = some σ) (hfresh : tn ∉ st.refs)
    (hns : noSpaceStr tn) (hzero : declCount st tn = 0) :
    declCount (refSchemaV2 cfg (f+1) st n tn) tn = 1 ∧
    tn ∈ (refSchemaV2 cfg (f+1) st n tn).refs ∧
    (refSchemaV2 cfg (f+1) st n tn).schemas = st.schemas := by
  have hcon : st.refs.contains tn = false := by
    cases hcc : st.refs.contains tn
    · rfl
    · exact absurd (by simpa [List.elem_iff] using hcc) hfresh
  simp only [refSchemaV2, hσ, hcon, Bool.false_eq_true, if_false]
  exact refBranchCount st σ tn _ hns hfresh ((presV2All cfg f).1 _ (some σ)) hzero

/-- C1.  In either translator instance (`ParseSchemas` / `ParseSchemasV2`),
translating a reference twice within one pass returns the identical formatted
type name both times — the pure function `formatSchemaName` of the reference
path's final `/` segment — and the backing declaration for a reachable name
(present in the schema container, not yet registered, not yet emitted) is
appended to the type/interface output templates exactly once: the first
resolution emits it, and the second resolution leaves the state entirely
unchanged. -/
theorem c1_reference_naming_idempotent
    (cfg : Config) (f₁ f₂ : Nat) (st : St) (refPath : String) (σ : Schema)
    (hσ : st.schemas.lookup (getRefName refPath) = some σ)
    (hfresh : formatSchemaName (getRefName refPath) ∉ st.refs)
    (hzero : declCount st (formatSchemaName (getRefName refPath)) = 0) :
    ((parseRefV3 cfg f₂ st refPath).2 = formatSchemaName (getRefName refPath) ∧
     (parseRefV3 cfg (f₁+1) st refPath).2 = formatSchemaName (getRefName refPath) ∧
     declCount (parseRefV3 cfg (f₁+1) st refPath).1
       (formatSchemaName (getRefName refPath)) = 1 ∧
     (parseRefV3 cfg f₂ (parseRefV3 cfg (f₁+1) st refPath).1 refPath).1 =
       (parseRefV3 cfg (f₁+1) st refPath).1) ∧
    ((parseRefV2 cfg f₂ st refPath).2 = formatSchemaName (getRefName refPath) ∧
     (parseRefV2 cfg (f₁+1) st refPath).2 = formatSchemaName (getRefName refPath) ∧
     declCount (parseRefV2 cfg (f₁+1) st refPath).1
       (formatSchemaName (getRefName refPath)) = 1 ∧
     (parseRefV2 cfg f₂ (parseRefV2 cfg (f₁+1) st refPath).1 refPath).1 =
       (parseRefV2 cfg (f₁+1) st refPath).1) := by
  have hns := formatSchemaName_noSpace (getRefName refPath)
  obtain ⟨hc3, hm3, _⟩ := refSchemaV3_fresh cfg f₁ st (getRefName refPath)
    (formatSchemaName (getRefName refPath)) σ hσ hfresh hns hzero
  obtain ⟨hc2, hm2, _⟩ := refSchemaV2_fresh cfg f₁ st (getRefName refPath)
    (formatSchemaName (getRefName refPath)) σ hσ hfresh hns hzero
  refine ⟨⟨rfl, rfl, hc3, ?_⟩, ⟨rfl, rfl, hc2, ?_⟩⟩
  · exact refSchemaV3_skip cfg f₂ _ _ _ hm3
  · exact refSchemaV2_skip cfg f₂ _ _ _ hm2

/-- Witness for C1 at a concrete document: one schema named `user`, the
reference `#/components/schemas/user`, fuels 2 and 3. -/
theorem c1_reference_naming_idempotent_witness :
    ((parseRefV3 defaultConfig 3 c1St "#/components/schemas/user").2 =
       formatSchemaName (getRefName "#/components/schemas/user") ∧
     (parseRefV3 defaultConfig 2 c1St "#/components/schemas/user").2 =
       formatSchemaName (getRefName "#/components/schemas/user") ∧
     declCount (parseRefV3 defaultConfig 2 c1St "#/components/schemas/user").1
       (formatSchemaName (getRefName "#/components/schemas/user")) = 1 ∧
     (parseRefV3 defaultConfig 3
       (parseRefV3 defaultConfig 2 c1St "#/components/schemas/user").1
       "#/components/schemas/user").1 =
       (parseRefV3 defaultConfig 2 c1St "#/components/schemas/user").1) ∧
    ((parseRefV2 defaultConfig 3 c1St "#/components/schemas/user").2 =
       formatSchemaName (getRefName "#/components/schemas/user") ∧
     (parseRefV2 defaultConfig 2 c1St "#/components/schemas/user").2 =
       formatSchemaName (getRefName "#/components/schemas/user") ∧
     declCount (parseRefV2 defaultConfig 2 c1St "#/components/schemas/user").1
       (formatSchemaName (getRefName "#/components/schemas/user")) = 1 ∧
     (parseRefV2 defaultConfig 3
       (parseRefV2 defaultConfig 2 c1St "#/components/schemas/user").1
       "#/components/schemas/user").1 =
       (parseRefV2 defaultConfig 2 c1St "#/components/schemas/user").1) :=
  c1_reference_naming_idempotent defaultConfig 1 3 c1St
    "#/components/schemas/user" strSchema (by rfl) (by decide) (by decide)

/-- Counterexample for C2 as stated: with a configured-but-empty include
list, `validate` rejects every tag, while the claim's formula — "the include
set is empty or the tag is in it" — accepts it.  The biconditional the claim
asserts therefore fails at this input. -/
theorem c2_empty_include_counterexample :
    tagValidate (mkTagValidator
      ⟨"main", some [], none, none, none, none, none, none, none, none, [], none⟩)
      "Article" = false ∧
    claimC2Formula (some []) none "Article" := by
  constructor
  · decide
  · constructor
    · left; rfl
    · intro h
      exact h.1 rfl

/-- C2 (amended).  `validate(T)` is true iff (no include list is configured
or T's upper-casing is among the include list's upper-cased entries) and (no
exclude list is configured or T's upper-casing is not among the exclude
list's upper-cased entries); a configured-but-empty include list therefore
rejects everything.  Case does not affect the result: `"Article"` and
`"ARTICLE"` behave identically under every configuration, and with neither
list configured every tag is accepted. -/
theorem c2_tag_filter (cfg : Config) (tag : String) :
    (tagValidate (mkTagValidator cfg) tag = true ↔
      (∀ l, cfg.includeList = some l → strUpper tag ∈ l.map strUpper) ∧
      (∀ l, cfg.excludeList = some l → strUpper tag ∉ l.map strUpper)) ∧
    tagValidate (mkTagValidator cfg) "Article" =
      tagValidate (mkTagValidator cfg) "ARTICLE" ∧
    (cfg.includeList = none → cfg.excludeList = none →
      tagValidate (mkTagValidator cfg) tag = true) := by
  refine ⟨?_, ?_, ?_⟩
  · rw [tagValidate, mkTagValidator]
    rcases hi : cfg.includeList with _ | il <;> rcases he : cfg.excludeList with _ | el
    · simp
    · simp only [Option.map_some, Option.map_none, Option.some.injEq]
      cases hmem : (el.map strUpper).contains (strUpper tag) <;> simp [hmem]
    · simp only [Option.map_some, Option.map_none, Option.some.injEq]
      cases hmem : (il.map strUpper).contains (strUpper tag) <;> simp [hmem]
    · simp only [Option.map_some, Option.some.injEq]
      cases hmi : (il.map strUpper).contains (strUpper tag) <;>
        cases hme : (el.map strUpper).contains (strUpper tag) <;> simp [hmi, hme]
  · have hup : strUpper "Article" = strUpper "ARTICLE" := by decide
    rw [tagValidate, tagValidate, hup]
  · intro hi he
    rw [tagValidate, mkTagValidator, hi, he]
    rfl

/-- Counterexample for C3 as stated: in the V3 translator an array whose
item type is the union `'a' | 'b'` is emitted without parentheses, as
`'a' | 'b'[]` and not `('a' | 'b')[]`. -/
theorem c3_v3_array_union_unparenthesized :
    (parseSchemaItemV3 defaultConfig 3 st0 (mkArraySchemaOne enumABSchema)).2 =
      "\x27a\x27 | \x27b\x27[]" ∧
    (parseSchemaItemV3 defaultConfig 3 st0 (mkArraySchemaOne enumABSchema)).2 ≠
      "(\x27a\x27 | \x27b\x27)[]" := by
  decide

/-- C3 (amended).  Only the V2 translator parenthesizes: for every array node
with a single item node, the V2 `parseSchemaItem` wraps the (newline-stripped)
item translation in parentheses whenever it contains `|` or `&` before
appending `[]`, while the V3 `parseSchemaItem` appends `[]` directly to the
item translation with no parenthesization whatsoever. -/
theorem c3_array_parenthesization
    (cfg : Config) (f : Nat) (st : St) (item : Schema)
    (hbar : hasBarAmp (dropTrailNL (parseSchemaItemV2 cfg f st (some item)).2) = true) :
    (parseSchemaItemV2 cfg (f+1) st (some (mkArraySchemaOne item))).2 =
      "(" ++ dropTrailNL (parseSchemaItemV2 cfg f st (some item)).2 ++ ")" ++ "[]" ∧
    (parseSchemaItemV3 cfg (f+1) st (mkArraySchemaOne item)).2 =
      (parseSchemaItemV3 cfg f st item).2 ++ "[]" := by
  constructor
  · simp [parseSchemaItemV2, mkArraySchemaOne, isRefField, combineOf,
      Schema.ref, Schema.type, Schema.items, Schema.allOf, Schema.oneOf,
      Schema.anyOf, hbar]
  · simp [parseSchemaItemV3, mkArraySchemaOne, isRefField, combineOf,
      Schema.ref, Schema.type, Schema.items, Schema.allOf, Schema.oneOf,
      Schema.anyOf]

/-- Witness for C3's amended theorem at the enum item `'a' | 'b'`. -/
theorem c3_array_parenthesization_witness :
    hasBarAmp (dropTrailNL
      (parseSchemaItemV2 defaultConfig 2 st0 (some enumABSchema)).2) = true ∧
    ((parseSchemaItemV2 defaultConfig 3 st0 (some (mkArraySchemaOne enumABSchema))).2 =
      "(" ++ dropTrailNL (parseSchemaItemV2 defaultConfig 2 st0 (some enumABSchema)).2 ++ ")" ++ "[]" ∧
     (parseSchemaItemV3 defaultConfig 3 st0 (mkArraySchemaOne enumABSchema)).2 =
      (parseSchemaItemV3 defaultConfig 2 st0 enumABSchema).2 ++ "[]") :=
  ⟨by decide, c3_array_parenthesization defaultConfig 2 st0 enumABSchema (by decide)⟩

/-- C4.  Evaluation of the code at the failing input: two `in: body`
parameters named `root` (a string schema then an integer schema).  The
source's `body += (body && body + ' & ') + parseSchemaItem(...)` duplicates
the prior body content, yielding `stringstring & number` where the claim
(and the guard expression's evident intent) prescribe `string & number`. -/
theorem c4_body_root_duplicates_prior_content :
    (parseParamsSchemaV2 defaultConfig 2 st0 opTwoRoots).1.body =
      "stringstring & number" ∧
    "stringstring & number" ≠ "string & number" := by
  decide

/-- C7.  Evaluation of the code at the failing input `"a"`: the key is
identifier-like under the claim's (and the source doc comment's) pattern,
yet `toSafePropKey` quotes it, because the regex
`/^[a-zA-Z$_](\w|_$)+$/` demands at least two characters.  Two-character
identifier-like keys are returned unchanged. -/
theorem c7_single_char_key_quoted :
    isIdentLikeClaim "a" = true ∧
    toSafePropKey "a" = "\x27a\x27" ∧
    toSafePropKey "ab" = "ab" ∧
    toSafePropKey "a-b" = "\x27a-b\x27" := by
  decide

/-- Counterexample for C8 as stated: the falsy primitive `0` is inferred as
`any`, not as its `typeof` name `number`. -/
theorem c8_falsy_primitive_counterexample :
    jsonToType (.num 0) = "any" ∧ jsTypeof (.num 0) = "number" ∧
    "any" ≠ "number" := by
  refine ⟨?_, rfl, by decide⟩
  simp [jsonToType, jsTruthy]

/-- C8 (amended).  `jsonToType`: every falsy value — `null`, `undefined` and
the falsy primitives `0`, `''`, `false` — yields `any`; a truthy primitive
yields its `typeof` name; a non-empty array infers from its first element and
an empty array yields `any[]`; an object with zero keys yields the open map
and an object with keys recurses per sanitized key. -/
theorem c8_json_to_type
    (n : Int) (s : String) (x : JVal) (xs : List JVal)
    (k : String) (v : JVal) (kvs : List (String × JVal)) :
    (∀ j : JVal, jsTruthy j = false → jsonToType j = "any") ∧
    (n ≠ 0 → jsonToType (.num n) = "number") ∧
    (s ≠ "" → jsonToType (.str s) = "string") ∧
    jsonToType (.bool true) = "boolean" ∧
    jsonToType (.arr (x :: xs)) = jsonToType x ++ "[]" ∧
    jsonToType (.arr []) = "any[]" ∧
    jsonToType (.obj []) = "\x7b[P:string]: any\x7d" ∧
    jsonToType (.obj ((k, v) :: kvs)) =
      "\x7b" ++ jsonToTypeFields ((k, v) :: kvs) ++ "\x7d" ∧
    jsonToTypeFields ((k, v) :: kvs) =
      toSafePropKey k ++ ": " ++ jsonToType v ++ ";" ++ jsonToTypeFields kvs := by
  refine ⟨?_, ?_, ?_, ?_, ?_, ?_, ?_, ?_, ?_⟩
  · intro j hj
    cases j <;> simp_all [jsonToType, jsTruthy]
  · intro hn
    simp [jsonToType, jsTruthy, jsTypeof, hn]
  · intro hs
    simp [jsonToType, jsTruthy, jsTypeof, hs]
  · simp [jsonToType, jsTruthy, jsTypeof]
  · simp [jsonToType, jsTruthy]
  · simp [jsonToType, jsTruthy]
  · simp [jsonToType, jsTruthy]
  · simp [jsonToType, jsTruthy]
  · rw [jsonToTypeFields]

/-- Witness for C8's amended theorem at concrete values. -/
theorem c8_json_to_type_witness :
    jsonToType (.num 0) = "any" ∧ jsonToType (.num 7) = "number" ∧
    jsonToType (.str "x") = "string" ∧
    jsonToType (.arr [.bool true]) = jsonToType (.bool true) ++ "[]" := by
  obtain ⟨hfal, hnum, hstr, hbool, harr, _, _, _, _⟩ :=
    c8_json_to_type 7 "x" (.bool true) [] "k" .null []
  exact ⟨hfal (.num 0) (by decide), hnum (by decide), hstr (by decide), harr⟩

/-- Removing a reference-shaped parameter from a V3 parameter list does not
change the state or the accumulated buffers. -/
theorem paramsLoopV3_skip_ref (cfg : Config) (fuel : Nat) (r : String)
    (l1 l2 : List ParamV3) : ∀ (st : St) (path query : String),
    (paramsLoopV3 cfg fuel st path query (l1 ++ .ref r :: l2)).1 =
    (paramsLoopV3 cfg fuel st path query (l1 ++ l2)).1 := by
  induction l1 with
  | nil =>
    intro st path query
    simp [paramsLoopV3]
  | cons x rest ih =>
    intro st path query
    cases x with
    | ref r' => simpa [paramsLoopV3] using ih _ _ _
    | inline pname loc schema descr =>
      simp only [List.cons_append, paramsLoopV3]
      by_cases hp : loc = "path" <;> by_cases hq : loc = "query" <;>
        simp [hp, hq, ih]

/-- The V3 parameter loop logs exactly one TODO warning per reference-shaped
parameter, in encounter order. -/
theorem paramsLoopV3_logs (cfg : Config) (fuel : Nat) (l : List ParamV3) :
    ∀ (st : St) (path query : String),
    (paramsLoopV3 cfg fuel st path query l).2 = l.filterMap paramLogV3 := by
  induction l with
  | nil => intro st path query; rfl
  | cons x rest ih =>
    intro st path query
    cases x with
    | ref r' => simp [paramsLoopV3, paramLogV3, ih]
    | inline pname loc schema descr =>
      simp only [List.filterMap_cons, paramsLoopV3, paramLogV3]
      by_cases hp : loc = "path" <;> by_cases hq : loc = "query" <;>
        simp [hp, hq, ih]

/-- Removing a reference-shaped parameter from a V2 parameter list does not
change the state or the accumulated buffers. -/
theorem paramsLoopV2_skip_ref (cfg : Config) (fuel : Nat) (r : String)
    (l1 l2 : List ParamV2) : ∀ (st : St) (path query body : String) (ifd : Bool),
    (paramsLoopV2 cfg fuel st path query body ifd (l1 ++ .ref r :: l2)).1 =
    (paramsLoopV2 cfg fuel st path query body ifd (l1 ++ l2)).1 := by
  induction l1 with
  | nil =>
    intro st path query body ifd
    simp [paramsLoopV2]
  | cons x rest ih =>
    intro st path query body ifd
    cases x with
    | ref r' => simpa [paramsLoopV2] using ih _ _ _ _ _
    | inline pname loc schema descr self =>
      simp only [List.cons_append, paramsLoopV2]
      by_cases hp : loc = "path" <;> by_cases hq : loc = "query" <;>
        by_cases hf : loc = "formData" <;> by_cases hb : loc = "body" <;>
        by_cases hr : pname = "root" <;>
        simp [hp, hq, hf, hb, hr, ih]

/-- The V2 parameter loop logs exactly one TODO warning per reference-shaped
parameter, in encounter order. -/
theorem paramsLoopV2_logs (cfg : Config) (fuel : Nat) (l : List ParamV2) :
    ∀ (st : St) (path query body : String) (ifd : Bool),
    (paramsLoopV2 cfg fuel st path query body ifd l).2 = l.filterMap paramLogV2 := by
  induction l with
  | nil => intro st path query body ifd; rfl
  | cons x rest ih =>
    intro st path query body ifd
    cases x with
    | ref r' => simp [paramsLoopV2, paramLogV2, ih]
    | inline pname loc schema descr self =>
      simp only [List.filterMap_cons, paramsLoopV2, paramLogV2]
      by_cases hp : loc = "path" <;> by_cases hq : loc = "query" <;>
        by_cases hf : loc = "formData" <;> by_cases hb : loc = "body" <;>
        by_cases hr : pname = "root" <;>
        simp [hp, hq, hf, hb, hr, ih]

/-- C9.  In both dialect translators a parameter expressed as a reference
object is skipped without failing the operation: the parsed parameter buffers
and the translator state are exactly those of the parameter list with the
reference removed (so no `name: type` line is appended for it and every
remaining parameter is still processed), and each reference-shaped parameter
contributes exactly one TODO warning to the log, in encounter order. -/
theorem c9_reference_parameters_skipped :
    (∀ (cfg : Config) (fuel : Nat) (st : St) (t : Option (List String))
       (oid d : Option String) (rb : Option BodyV3)
       (resp : List (String × RespV3)) (l1 l2 : List ParamV3) (r : String),
      (parseParamsSchemaV3 cfg fuel st
        ⟨t, oid, d, some (l1 ++ .ref r :: l2), rb, resp⟩).1 =
      (parseParamsSchemaV3 cfg fuel st ⟨t, oid, d, some (l1 ++ l2), rb, resp⟩).1) ∧
    (∀ (cfg : Config) (fuel : Nat) (st : St) (op : OperationV3),
      (parseParamsSchemaV3 cfg fuel st op).2 =
      (op.parameters.getD []).filterMap paramLogV3) ∧
    (∀ (cfg : Config) (fuel : Nat) (st : St) (t : Option (List String))
       (oid d : Option String) (resp : List (String × RespV2))
       (l1 l2 : List ParamV2) (r : String),
      (parseParamsSchemaV2 cfg fuel st
        ⟨t, oid, d, some (l1 ++ .ref r :: l2), resp⟩).1 =
      (parseParamsSchemaV2 cfg fuel st ⟨t, oid, d, some (l1 ++ l2), resp⟩).1) ∧
    (∀ (cfg : Config) (fuel : Nat) (st : St) (op : OperationV2),
      (parseParamsSchemaV2 cfg fuel st op).2 =
      (op.parameters.getD []).filterMap paramLogV2) := by
  refine ⟨?_, ?_, ?_, ?_⟩
  · intro cfg fuel st t oid d rb resp l1 l2 r
    simp [parseParamsSchemaV3, paramsLoopV3_skip_ref]
  · intro cfg fuel st op
    simp [parseParamsSchemaV3, paramsLoopV3_logs]
  · intro cfg fuel st t oid d resp l1 l2 r
    simp [parseParamsSchemaV2, paramsLoopV2_skip_ref]
  · intro cfg fuel st op
    simp [parseParamsSchemaV2, paramsLoopV2_logs]

/-- Removing an operation stored under a non-HTTP-method key from a V3 path
item changes nothing. -/
theorem pathItemLoopV3_skip_key (cfg : Config) (fuel : Nat) (url k : String)
    (op : OperationV3) (hk : isHttpMethodKey k = false)
    (l1 l2 : List (String × OperationV3)) : ∀ (st : St) (tags : Tags),
    pathItemLoopV3 cfg fuel st tags url (l1 ++ (k, op) :: l2) =
    pathItemLoopV3 cfg fuel st tags url (l1 ++ l2) := by
  induction l1 with
  | nil =>
    intro st tags
    simp [pathItemLoopV3, hk]
  | cons x rest ih =>
    intro st tags
    obtain ⟨k', op'⟩ := x
    simp only [List.cons_append, pathItemLoopV3]
    by_cases h1 : isHttpMethodKey k' <;> simp only [h1, Bool.not_true,
      Bool.not_false, Bool.false_eq_true, Bool.true_eq_false, if_true, if_false,
      ite_true, ite_false]
    · by_cases h2 : tagValidate (mkTagValidator cfg) (firstTagOr op'.tags) <;>
        simp only [h2, Bool.not_true, Bool.not_false, Bool.false_eq_true,
          Bool.true_eq_false, if_true, if_false, ite_true, ite_false]
      · simp only [List.append_eq]
        rw [ih]
      · exact ih _ _
    · exact ih _ _

/-- Removing an operation stored under a non-HTTP-method key from a V2 path
item changes nothing. -/
theorem pathItemLoopV2_skip_key (cfg : Config) (fuel : Nat) (url k : String)
    (op : OperationV2) (hk : isHttpMethodKey k = false)
    (l1 l2 : List (String × OperationV2)) : ∀ (st : St) (tags : Tags),
    pathItemLoopV2 cfg fuel st tags url (l1 ++ (k, op) :: l2) =
    pathItemLoopV2 cfg fuel st tags url (l1 ++ l2) := by
  induction l1 with
  | nil =>
    intro st tags
    simp [pathItemLoopV2, hk]
  | cons x rest ih =>
    intro st tags
    obtain ⟨k', op'⟩ := x
    simp only [List.cons_append, pathItemLoopV2]
    by_cases h1 : isHttpMethodKey k' <;> simp only [h1, Bool.not_true,
      Bool.not_false, Bool.false_eq_true, Bool.true_eq_false, if_true, if_false,
      ite_true, ite_false]
    · by_cases h2 : tagValidate (mkTagValidator cfg)
        (match cfg.getTag with
         | some g => g (urlNameOf cfg url) k' op'
         | none => firstTagOr op'.tags) <;>
        simp only [h2, Bool.not_true, Bool.not_false, Bool.false_eq_true,
          Bool.true_eq_false, if_true, if_false, ite_true, ite_false]
      · simp only [List.append_eq]
        rw [ih]
      · exact ih _ _
    · exact ih _ _

/-- Lifting `pathItemLoopV3_skip_key` through the URL loop. -/
theorem pathsLoopV3_skip_key (cfg : Config) (fuel : Nat) (url k : String)
    (op : OperationV3) (hk : isHttpMethodKey k = false)
    (l1 l2 : List (String × OperationV3))
    (pA pB : List (String × List (String × OperationV3))) :
    ∀ (st : St) (tags : Tags),
    pathsLoopV3 cfg fuel st tags (pA ++ (url, l1 ++ (k, op) :: l2) :: pB) =
    pathsLoopV3 cfg fuel st tags (pA ++ (url, l1 ++ l2) :: pB) := by
  induction pA with
  | nil =>
    intro st tags
    simp only [List.nil_append, pathsLoopV3]
    rw [pathItemLoopV3_skip_key cfg fuel url k op hk l1 l2]
  | cons y rest ih =>
    intro st tags
    obtain ⟨u', pi'⟩ := y
    simp only [List.cons_append, pathsLoopV3, List.append_eq]
    rw [ih]

/-- Lifting `pathItemLoopV2_skip_key` through the URL loop. -/
theorem pathsLoopV2_skip_key (cfg : Config) (fuel : Nat) (url k : String)
    (op : OperationV2) (hk : isHttpMethodKey k = false)
    (l1 l2 : List (String × OperationV2))
    (pA pB : List (String × List (String × OperationV2))) :
    ∀ (st : St) (tags : Tags),
    pathsLoopV2 cfg fuel st tags (pA ++ (url, l1 ++ (k, op) :: l2) :: pB) =
    pathsLoopV2 cfg fuel st tags (pA ++ (url, l1 ++ l2) :: pB) := by
  induction pA with
  | nil =>
    intro st tags
    simp only [List.nil_append, pathsLoopV2]
    rw [pathItemLoopV2_skip_key cfg fuel url k op hk l1 l2]
  | cons y rest ih =>
    intro st tags
    obtain ⟨u', pi'⟩ := y
    simp only [List.cons_append, pathsLoopV2, List.append_eq]
    rw [ih]

/-- C10.  In both dialect translators `parsePaths` produces request items
only for path-item keys whose upper-case form is a key of `HttpMethods`
(`GET`, `PUT`, `POST`, `DELETE`): an operation stored under any other key
(e.g. `patch`, `head`, `options`) leaves the translator state, every tag
group and the logs exactly as if the entry were absent. -/
theorem c10_only_http_method_keys
    (cfg : Config) (fuel : Nat) (st : St) (url k : String)
    (hk : httpMethodsKeys.contains (strUpper k) = false) :
    (∀ (op : OperationV3) (pA pB : List (String × List (String × OperationV3)))
       (l1 l2 : List (String × OperationV3)),
      parsePathsV3 cfg fuel st (pA ++ (url, l1 ++ (k, op) :: l2) :: pB) =
      parsePathsV3 cfg fuel st (pA ++ (url, l1 ++ l2) :: pB)) ∧
    (∀ (op : OperationV2) (pA pB : List (String × List (String × OperationV2)))
       (l1 l2 : List (String × OperationV2)),
      parsePathsV2 cfg fuel st (pA ++ (url, l1 ++ (k, op) :: l2) :: pB) =
      parsePathsV2 cfg fuel st (pA ++ (url, l1 ++ l2) :: pB)) := by
  have hk' : isHttpMethodKey k = false := hk
  constructor
  · intro op pA pB l1 l2
    rw [parsePathsV3, parsePathsV3, pathsLoopV3_skip_key cfg fuel url k op hk' l1 l2 pA pB]
  · intro op pA pB l1 l2
    rw [parsePathsV2, parsePathsV2, pathsLoopV2_skip_key cfg fuel url k op hk' l1 l2 pA pB]

/-- Witness for C10 at the key `patch` on a concrete single-path document. -/
theorem c10_only_http_method_keys_witness :
    parsePathsV3 defaultConfig 2 st0
      [("/x", [("patch", (⟨none, none, none, none, none, []⟩ : OperationV3))])] =
    parsePathsV3 defaultConfig 2 st0 [("/x", [])] ∧
    parsePathsV2 defaultConfig 2 st0
      [("/x", [("patch", (⟨none, none, none, none, []⟩ : OperationV2))])] =
    parsePathsV2 defaultConfig 2 st0 [("/x", [])] := by
  obtain ⟨h3, h2⟩ := c10_only_http_method_keys defaultConfig 2 st0 "/x" "patch"
    (by decide)
  exact ⟨h3 ⟨none, none, none, none, none, []⟩ [] [] [] [],
    h2 ⟨none, none, none, none, []⟩ [] [] [] []⟩

/-- Writing any of the four type slots leaves the function name unchanged. -/
theorem setField_name (item : RequestItem) (k : FieldKey) (v : String) :
    (setField item k v).name = item.name := by
  cases k <;> rfl

/-- Manual overrides only ever write the four type slots, never the name. -/
theorem mergeManualTypes_name (l : List (FieldKey × ManualVal)) :
    ∀ item : RequestItem, (mergeManualTypes item l).name = item.name := by
  induction l with
  | nil => intro item; rfl
  | cons x rest ih =>
    intro item
    obtain ⟨k, v⟩ := x
    cases v with
    | str s =>
      simp only [mergeManualTypes]
      rw [ih]
      split
      · exact setField_name item k s
      · rfl
    | data j =>
      simp only [mergeManualTypes]
      rw [ih]
      split
      · exact setField_name item k _
      · rfl
    | fn f =>
      simp only [mergeManualTypes]
      rw [ih]
      exact setField_name item k _

theorem isPrefixOf_mono (n a b : List Char) (h : n.isPrefixOf a = true) :
    n.isPrefixOf (a ++ b) = true := by
  rw [List.isPrefixOf_iff_prefix] at h ⊢
  exact h.trans (List.prefix_append a b)

theorem listInfixB_append_left (n a b : List Char)
    (h : listInfixB n b = true) : listInfixB n (a ++ b) = true := by
  induction a with
  | nil => simpa using h
  | cons c cs ih => exact listInfixB_cons _ _ _ ih

theorem listInfixB_append_right (n a b : List Char) :
    listInfixB n a = true → listInfixB n (a ++ b) = true := by
  induction a with
  | nil =>
    intro h
    have hn : n = [] := by
      cases n with
      | nil => rfl
      | cons c cs => simp [listInfixB] at h
    subst hn
    cases b <;> rfl
  | cons c cs ih =>
    intro h
    simp only [listInfixB, Bool.or_eq_true] at h
    rcases h with h | h
    · show (n.isPrefixOf (c :: (cs ++ b)) || listInfixB n (cs ++ b)) = true
      simp only [Bool.or_eq_true]
      exact Or.inl (isPrefixOf_mono _ _ _ h)
    · show (n.isPrefixOf (c :: (cs ++ b)) || listInfixB n (cs ++ b)) = true
      simp only [Bool.or_eq_true]
      exact Or.inr (ih h)

theorem strContainsB_append_left (a b sub : String)
    (h : strContainsB b sub = true) : strContainsB (a ++ b) sub = true := by
  rw [strContainsB, strData_append]
  exact listInfixB_append_left _ _ _ h

theorem strContainsB_append_right (a b sub : String)
    (h : strContainsB a sub = true) : strContainsB (a ++ b) sub = true := by
  rw [strContainsB, strData_append]
  exact listInfixB_append_right _ _ _ h

/-- Containment lifts through an `Array.prototype.join`. -/
theorem strContainsB_joinSep (sep : String) (l : List String) (x sub : String)
    (h : strContainsB x sub = true) :
    x ∈ l → strContainsB (joinSep sep l) sub = true := by
  induction l with
  | nil => intro hx; cases hx
  | cons y rest ih =>
    intro hx
    cases rest with
    | nil =>
      rcases List.mem_singleton.mp hx with rfl
      exact h
    | cons z zs =>
      rcases List.mem_cons.mp hx with rfl | hx2
      · show strContainsB (x ++ sep ++ joinSep sep (z :: zs)) sub = true
        exact strContainsB_append_right _ _ _ (strContainsB_append_right _ _ _ h)
      · show strContainsB (y ++ sep ++ joinSep sep (z :: zs)) sub = true
        exact strContainsB_append_left _ _ _ (ih hx2)

/-- The generator passes `options.data` whenever the item's body type is
non-empty and the method matches `/^(post|put)/` — the form-data flag is
never consulted. -/
theorem createFunctionTemplate_data_arg (cfg : Config) (pre : String)
    (item : RequestItem) (hb : (item.requestBodyType != "") = true)
    (hm : methodIsPostPut item.method = true) :
    strContainsB (createFunctionTemplate cfg pre item false) "options.data"
      = true := by
  have hd : (if (item.requestBodyType != "" && methodIsPostPut item.method)
        = true then "options.data" else "") = "options.data" := by
    rw [hb, hm]
    rfl
  simp only [createFunctionTemplate, Bool.false_eq_true, if_false, ite_false]
  rw [hd]
  refine strContainsB_joinSep "\n" _ _ "options.data" ?_
    (List.mem_cons_of_mem _ (List.mem_cons_of_mem _ (List.mem_cons_self _ _)))
  apply strContainsB_append_right
  apply strContainsB_append_left
  exact strContainsB_joinSep ", " _ "options.data" "options.data" (by decide)
    (List.mem_filter.mpr
      ⟨List.mem_cons_of_mem _ (List.mem_cons_self _ _), by decide⟩)

/-- C5.  Counterexample: the V2 translator ignores the operation's explicit
`operationId` and applies no duplicate-prefix stripping — on `/getUser` with
`operationId: user_list` and tag `user` it produces `getGetUser` (the
redundant repetition the claim rules out), while the claim's formula
prescribes `getList`. -/
theorem c5_v2_ignores_operation_id :
    ((parsePathsV2 defaultConfig 2 st0
        [("/getUser", [("get", opWithOperationId)])]).1.2.map
      (fun p => (p.1, p.2.map RequestItem.name))) =
      [("user", ["getGetUser"])] ∧
    claimC5Name "get" "user" opWithOperationId.operationId "/getUser"
      defaultConfig.urlToNameReplacer = "getList" ∧
    "getGetUser" ≠ "getList" := by
  exact ⟨by decide, by decide, by decide⟩

/-- C5 (amended).  Only the V3 translator follows the claimed naming rule:
for a retained single-operation path its item name is
`method ++ pascalCase(strip (tag_)?(method)? from (operationId or the
possibly replaced url))`.  The V2 translator ignores `operationId` and
strips nothing: its item name is always `method ++ pascalCase(url after
urlToNameReplacer)`. -/
theorem c5_function_name
    (cfg : Config) (fuel : Nat) (st : St) (url k : String)
    (hk : isHttpMethodKey k = true) :
    (∀ (op : OperationV3),
      tagValidate (mkTagValidator cfg) (firstTagOr op.tags) = true →
      (match op.operationId with | some o => o ≠ "" | none => True) →
      ∃ item : RequestItem,
        (parsePathsV3 cfg fuel st [(url, [(k, op)])]).1.2 =
          [(firstTagOr op.tags, [item])] ∧
        item.name =
          claimC5Name k (firstTagOr op.tags) op.operationId url
            cfg.urlToNameReplacer) ∧
    (∀ (op : OperationV2) (tag : String),
      (match cfg.getTag with
       | some g => g (urlNameOf cfg url) k op
       | none => firstTagOr op.tags) = tag →
      tagValidate (mkTagValidator cfg) tag = true →
      ∃ item : RequestItem,
        (parsePathsV2 cfg fuel st [(url, [(k, op)])]).1.2 = [(tag, [item])] ∧
        item.name = k ++ pascalCase (urlNameOf cfg url)) := by
  constructor
  · intro op htag hoid
    simp only [parsePathsV3, pathsLoopV3, pathItemLoopV3, hk, htag,
      Bool.not_true, Bool.not_false, Bool.false_eq_true, Bool.true_eq_false,
      if_true, if_false, ite_true, ite_false, pushTag, List.lookup_nil,
      Option.isSome_none, List.nil_append]
    refine ⟨_, rfl, ?_⟩
    cases hO : op.operationId with
    | none => simp [claimC5Name, urlNameOf]
    | some o =>
      simp only [hO] at hoid
      have hbne : (o != "") = true := bne_iff_ne.mpr hoid
      simp [claimC5Name, hbne]
  · intro op tag htagdef htv
    subst htagdef
    simp only [parsePathsV2, pathsLoopV2, pathItemLoopV2, hk, htv,
      Bool.not_true, Bool.not_false, Bool.false_eq_true, Bool.true_eq_false,
      if_true, if_false, ite_true, ite_false, pushTag, List.lookup_nil,
      Option.isSome_none, List.nil_append]
    cases hM : (cfg.manualTypes.lookup url).bind (fun m => m.lookup k) with
    | none =>
      simp only [hM]
      exact ⟨_, rfl, rfl⟩
    | some m =>
      simp only [hM]
      refine ⟨_, rfl, ?_⟩
      rw [mergeManualTypes_name]

/-- C5 witness: the V3 naming rule at `get /user` with
`operationId: user_list` and tag `user`. -/
theorem c5_function_name_witness :
    ∃ item : RequestItem,
      (parsePathsV3 defaultConfig 2 st0 [("/user", [("get", opV3WithId)])]).1.2
        = [(firstTagOr opV3WithId.tags, [item])] ∧
      item.name = claimC5Name "get" (firstTagOr opV3WithId.tags)
        opV3WithId.operationId "/user" defaultConfig.urlToNameReplacer :=
  (c5_function_name defaultConfig 2 st0 "/user" "get" (by decide)).1
    opV3WithId (by decide) (by decide : ("user_list" : String) ≠ "")

/-- C6.  Counterexample: on the concrete two-`formData`-parameter POST
operation the body type does begin `FormData | \x7b` and the flag is set, but
the generated function nevertheless passes `options.data` — the generator
never reads `requestBodyTypeIsFormData`, so no form-data path replaces the
JSON body argument. -/
theorem c6_generator_still_passes_data :
    ((parsePathsV2 defaultConfig 2 st0
        [("/upload", [("post", opTwoFormData)])]).1.2.map
      (fun p => (p.1, p.2.map (fun it =>
        (it.requestBodyTypeIsFormData,
         strStartsB it.requestBodyType "FormData | \x7b",
         strContainsB
           (createFunctionTemplate defaultConfig "API.Main.PostUpload." it
             false)
           "options.data"))))) =
    [("main", [(true, true, true)])] := by decide

/-- C6 (amended).  A V2 operation with two `in: formData` parameters yields a
body type beginning `FormData | \x7b` and the form-data flag set, exactly as
claimed; but the generator keeps the `options.data` call argument for every
post/put item with a non-empty body type — including these — rather than
omitting it. -/
theorem c6_form_data_body
    (cfg : Config) (fuel : Nat) (st : St) (t : Option (List String))
    (oid dsc : Option String) (resp : List (String × RespV2))
    (n1 n2 : String) (s1 s2 : Option Schema) (d1 d2 : Option String)
    (self1 self2 : Schema) :
    ((parseParamsSchemaV2 cfg fuel st
        ⟨t, oid, dsc, some [.inline n1 "formData" s1 d1 self1,
                            .inline n2 "formData" s2 d2 self2],
         resp⟩).1.isFormDataBody = true) ∧
    (strStartsB (parseParamsSchemaV2 cfg fuel st
        ⟨t, oid, dsc, some [.inline n1 "formData" s1 d1 self1,
                            .inline n2 "formData" s2 d2 self2],
         resp⟩).1.body "FormData | \x7b" = true) ∧
    (∀ (item : RequestItem) (pre : String),
      item.requestBodyType =
        (parseParamsSchemaV2 cfg fuel st
          ⟨t, oid, dsc, some [.inline n1 "formData" s1 d1 self1,
                              .inline n2 "formData" s2 d2 self2],
           resp⟩).1.body →
      methodIsPostPut item.method = true →
      strContainsB (createFunctionTemplate cfg pre item false) "options.data"
        = true) := by
  refine ⟨rfl, strStartsB_of_data _ _ _ rfl, ?_⟩
  intro item pre hEq hm
  refine createFunctionTemplate_data_arg cfg pre item ?_ hm
  rw [hEq]
  rfl

/-- C6 witness: the amended statement at the concrete two-field form-data
operation. -/
theorem c6_form_data_body_witness :
    (parseParamsSchemaV2 defaultConfig 2 st0 opTwoFormData).1.isFormDataBody
      = true ∧
    strStartsB (parseParamsSchemaV2 defaultConfig 2 st0 opTwoFormData).1.body
      "FormData | \x7b" = true ∧
    strContainsB
      (createFunctionTemplate defaultConfig "API.Main.PostUpload."
        (RequestItem.mk "postUpload" "/upload" "post" "" "" ""
          (parseParamsSchemaV2 defaultConfig 2 st0 opTwoFormData).1.body ""
          true)
        false) "options.data" = true := by
  obtain ⟨h1, h2, h3⟩ := c6_form_data_body defaultConfig 2 st0 none none none
    [] "file" "memo" (some strSchema) (some strSchema) none none strSchema
    strSchema
  exact ⟨h1, h2, h3 _ "API.Main.PostUpload." rfl (by decide)⟩

end BuildApi
